import Mathlib

/-!
# Verification of the AI-MINESWEEPER hint engine

Shallow embedding of the hint-engine core of the repository:
`src/models/GameBoard.ts`, `src/ai/ConstraintSolver.ts` (bundled into
`src/ai/HintEngine.ts`), `src/ai/ProbabilityCalculator.ts` and
`src/ai/HintEngine.ts`.

Modelling conventions:
* JavaScript numbers are modelled as exact rationals (`ℚ`) for probability
  arithmetic and as `Int`/`Nat` for counts.  Every comparison against a
  threshold appearing in the theorems below has enough slack that IEEE-754
  rounding cannot change its outcome on the boards considered.
* The TS `GameBoard` class stores a `Cell[][]` with `board[y][x].coordinates`
  permanently equal to `{x, y}` (set once in the constructor, never changed).
  We represent a board by its dimensions, mine count and four field functions;
  `cellAt` rebuilds the cell record with its coordinates, which is exactly the
  class invariant of the TS code.
* `Set<string>` keyed by the injective encoding `"x,y"` of a coordinate is
  modelled by an insertion-ordered duplicate-free list of `Coordinate`
  (`addCoord`/`addAll`); `stringToCoord ∘ coordToString` is the identity on
  the integer coordinates the engine produces.
* A JS `Map` (insertion-ordered, `set` overwrites in place) is modelled by an
  association list with `mapSet`/`mapGet`.
* A candidate mine assignment (the TS `MineAssignment` object built from the
  binary digits of the loop counter `i`) is represented by its counter `i`;
  `assignFun cells i` is the resulting lookup function, with the JS
  "last write wins" semantics on duplicate keys and `undefined ↦ false`
  for absent keys.  Bit `j` of `i` is `(i / 2^j) % 2 = 1`, matching
  `(i & (1 << j)) !== 0`.
* `Array.prototype.sort` with comparator `(a, b) => b.priority - a.priority`
  is, per the ECMAScript specification, a stable descending sort; it is
  modelled by a stable insertion sort `sortByPriorityDesc`.
-/

structure Coordinate where
  x : Int
  y : Int
deriving DecidableEq, Repr

structure Cell where
  hasMine : Bool
  isRevealed : Bool
  isFlagged : Bool
  adjacentMines : Int
  coordinates : Coordinate
deriving DecidableEq, Repr

structure Constraint where
  centerCell : Coordinate
  requiredMines : Int
  affectedCells : List Coordinate
deriving DecidableEq, Repr

/-- A game board snapshot: dimensions, declared mine total and the four
per-cell fields of the TS `Cell` record, addressed by `(x, y)`. -/
structure GameBoard where
  width : Nat
  height : Nat
  mineCount : Int
  mineAt : Int → Int → Bool
  revealedAt : Int → Int → Bool
  flaggedAt : Int → Int → Bool
  adjacentMinesAt : Int → Int → Int

namespace GameBoard

def isValidCoordinate (b : GameBoard) (x y : Int) : Bool :=
  decide (0 ≤ x) && decide (x < (b.width : Int)) &&
    decide (0 ≤ y) && decide (y < (b.height : Int))

/-- The cell record stored at `board[y][x]`; its `coordinates` field always
equals `{x, y}` (class invariant of the TS `GameBoard`). -/
def cellAt (b : GameBoard) (x y : Int) : Cell :=
  { hasMine := b.mineAt x y
    isRevealed := b.revealedAt x y
    isFlagged := b.flaggedAt x y
    adjacentMines := b.adjacentMinesAt x y
    coordinates := ⟨x, y⟩ }

def getCell (b : GameBoard) (x y : Int) : Option Cell :=
  if b.isValidCoordinate x y then some (b.cellAt x y) else none

/-- All board coordinates in the row-major order (`y` outer, `x` inner) used
by every full-grid scan of the TS class. -/
def allCoords (b : GameBoard) : List Coordinate :=
  (List.range b.height).flatMap fun y =>
    (List.range b.width).map fun (x : Nat) => ⟨(x : Int), (y : Int)⟩

def boardCells (b : GameBoard) : List Cell :=
  b.allCoords.map fun c => b.cellAt c.x c.y

def getRevealedCells (b : GameBoard) : List Cell :=
  b.boardCells.filter fun c => c.isRevealed

def getUnrevealedCells (b : GameBoard) : List Cell :=
  b.boardCells.filter fun c => !c.isRevealed

def getFlaggedCells (b : GameBoard) : List Cell :=
  b.boardCells.filter fun c => c.isFlagged

def getRevealedCount (b : GameBoard) : Nat := b.getRevealedCells.length

def getFlaggedCount (b : GameBoard) : Nat := b.getFlaggedCells.length

def getMineCount (b : GameBoard) : Int := b.mineCount

/-- The 8 neighbour offsets `(dx, dy)` in the loop order of
`getAdjacentCells` (`dy` outer from −1 to 1, `dx` inner, centre skipped). -/
def neighborOffsets : List (Int × Int) :=
  [(-1, -1), (0, -1), (1, -1), (-1, 0), (1, 0), (-1, 1), (0, 1), (1, 1)]

def adjacentCoords (b : GameBoard) (x y : Int) : List Coordinate :=
  neighborOffsets.filterMap fun d =>
    if b.isValidCoordinate (x + d.1) (y + d.2) then
      some ⟨x + d.1, y + d.2⟩
    else none

def getAdjacentCells (b : GameBoard) (x y : Int) : List Cell :=
  (b.adjacentCoords x y).map fun c => b.cellAt c.x c.y

end GameBoard

/-- Insert a coordinate into a JS-`Set`-like list (no-op when present,
appended otherwise; insertion order preserved). -/
def addCoord (l : List Coordinate) (c : Coordinate) : List Coordinate :=
  if c ∈ l then l else l ++ [c]

def addAll (l : List Coordinate) (cs : List Coordinate) : List Coordinate :=
  cs.foldl addCoord l

/-- `new Set(list)` — deduplicate keeping first occurrences. -/
def jsSet (l : List Coordinate) : List Coordinate := addAll [] l

structure GuaranteedMoves where
  safe : List Coordinate
  mines : List Coordinate
deriving DecidableEq, Repr

namespace ConstraintSolver

/-- `ConstraintSolver.extractConstraints`: one constraint per revealed cell
that has at least one unrevealed, unflagged neighbour and a non-negative
remaining-mine count. -/
def extractConstraints (b : GameBoard) : List Constraint :=
  b.getRevealedCells.filterMap fun cell =>
    let adjacentCells := b.getAdjacentCells cell.coordinates.x cell.coordinates.y
    let unrevealedAdjacent := adjacentCells.filter fun c => !c.isRevealed && !c.isFlagged
    let flaggedAdjacent := adjacentCells.filter fun c => c.isFlagged
    let remainingMines : Int := cell.adjacentMines - flaggedAdjacent.length
    if unrevealedAdjacent.length > 0 ∧ 0 ≤ remainingMines then
      some { centerCell := cell.coordinates
             requiredMines := remainingMines
             affectedCells := unrevealedAdjacent.map fun c => c.coordinates }
    else none

/-- One step of the first (zero-rule / saturation-rule) loop of
`findGuaranteedMoves`; the accumulator is `(guaranteedSafe, guaranteedMines)`. -/
def simpleRulesStep (acc : List Coordinate × List Coordinate) (c : Constraint) :
    List Coordinate × List Coordinate :=
  if c.requiredMines = 0 then
    (addAll acc.1 c.affectedCells, acc.2)
  else if c.requiredMines = (c.affectedCells.length : Int) ∧ 0 < c.requiredMines then
    (acc.1, addAll acc.2 c.affectedCells)
  else acc

/-- The ordered pairs `(constraints[i], constraints[j])`, `i ≠ j`, visited by
the double loop of the subset/superset pass. -/
def constraintPairs (cs : List Constraint) : List (Constraint × Constraint) :=
  cs.enum.flatMap fun ci =>
    cs.enum.filterMap fun cj =>
      if ci.1 = cj.1 then none else some (ci.2, cj.2)

/-- One step of the subset/superset deduction loop of `findGuaranteedMoves`. -/
def subsetStep (acc : List Coordinate × List Coordinate) (p : Constraint × Constraint) :
    List Coordinate × List Coordinate :=
  let c1Set := jsSet p.1.affectedCells
  let c2Set := jsSet p.2.affectedCells
  if c1Set.all fun s => decide (s ∈ c2Set) then
    let difference := c2Set.filter fun s => decide (s ∉ c1Set)
    let mineDifference := p.2.requiredMines - p.1.requiredMines
    if mineDifference = 0 then
      (addAll acc.1 difference, acc.2)
    else if mineDifference = (difference.length : Int) ∧ 0 < mineDifference then
      (acc.1, addAll acc.2 difference)
    else acc
  else acc

/-- `ConstraintSolver.findGuaranteedMoves`: simple rules, then the
subset/superset deduction pass. -/
def findGuaranteedMoves (b : GameBoard) : GuaranteedMoves :=
  let constraints := extractConstraints b
  let afterSimple := constraints.foldl simpleRulesStep ([], [])
  let afterSubset := (constraintPairs constraints).foldl subsetStep afterSimple
  ⟨afterSubset.1, afterSubset.2⟩

/-- `ConstraintSolver.validateConstraints`. -/
def validateConstraints (cs : List Constraint) : Bool :=
  cs.all fun c =>
    decide (0 ≤ c.requiredMines) && decide (c.requiredMines ≤ (c.affectedCells.length : Int))

end ConstraintSolver

/-- A JS `Map<Coordinate, number>` as an insertion-ordered association list. -/
abbrev ProbMap := List (Coordinate × ℚ)

/-- `Map.get`. -/
def mapGet (m : ProbMap) (k : Coordinate) : Option ℚ :=
  (m.find? fun e => decide (e.1 = k)).map fun e => e.2

/-- `Map.set`: overwrite in place when the key is present, append otherwise. -/
def mapSet (m : ProbMap) (k : Coordinate) (v : ℚ) : ProbMap :=
  if m.any fun e => decide (e.1 = k) then
    m.map fun e => if e.1 = k then (k, v) else e
  else m ++ [(k, v)]

def mapKeys (m : ProbMap) : List Coordinate := m.map fun e => e.1

/-- `Math.round` on a non-negative JS number: round half away from zero,
i.e. `⌊q + 1/2⌋`. -/
def jsRound (q : ℚ) : Int := ⌊q + 1 / 2⌋

namespace ProbabilityCalculator

/-- The mine assignment encoded by the binary digits of the counter `i` over
the ordered cell list, with the JS object semantics: a later index for the
same key overwrites an earlier one, and a key not in the list reads as
`undefined` (≠ `true`, hence `false`).  Bit `j` of `i` is `(i / 2^j) % 2 = 1`. -/
def assignFun : List Coordinate → Nat → Coordinate → Bool
  | [], _, _ => false
  | d :: rest, i, c =>
    if c ∈ rest then assignFun rest (i / 2) c
    else if c = d then decide (i % 2 = 1)
    else false

/-- `ProbabilityCalculator.isValidAssignment`: the assignment puts exactly
`requiredMines` mines on each constraint's affected cells. -/
def isValidAssignment (f : Coordinate → Bool) (constraints : List Constraint) : Bool :=
  constraints.all fun c =>
    decide (((c.affectedCells.countP fun a => f a) : Int) = c.requiredMines)

/-- `ProbabilityCalculator.generateValidAssignments`, with assignments
represented by their loop counters. -/
def generateValidAssignments (constraints : List Constraint) (cells : List Coordinate) :
    List Nat :=
  let totalCombinations := 2 ^ cells.length
  let maxCombinations := min totalCombinations 1000000
  (List.range maxCombinations).filter fun i => isValidAssignment (assignFun cells i) constraints

/-- `ProbabilityCalculator.calculateConstrainedProbabilities`. -/
def calculateConstrainedProbabilities (constraints : List Constraint)
    (constrainedCells : List Coordinate) : ProbMap :=
  let m0 := constrainedCells.foldl (fun m c => mapSet m c 0) []
  let valid := generateValidAssignments constraints constrainedCells
  if valid.length = 0 then
    constrainedCells.foldl (fun m c => mapSet m c (1 / 2)) m0
  else
    constrainedCells.foldl
      (fun m c =>
        let mineCount := valid.countP fun i => assignFun constrainedCells i c
        mapSet m c ((mineCount : ℚ) / (valid.length : ℚ)))
      m0

/-- `ProbabilityCalculator.calculateUnconstrainedProbability`. -/
def calculateUnconstrainedProbability (b : GameBoard)
    (constrainedCellCount unconstrainedCellCount : Nat) : ℚ :=
  if unconstrainedCellCount = 0 then 0
  else
    let totalMines := b.getMineCount
    let flaggedCount := b.getFlaggedCount
    let revealedMines := (b.getRevealedCells.filter fun c => c.hasMine).length
    let remainingMines : Int := totalMines - flaggedCount - revealedMines
    let estimatedConstrainedMines : Int :=
      min remainingMines (jsRound ((constrainedCellCount : ℚ) * (1 / 5)))
    let remainingUnconstrainedMines : Int :=
      max 0 (remainingMines - estimatedConstrainedMines)
    min 1 ((remainingUnconstrainedMines : ℚ) / (unconstrainedCellCount : ℚ))

/-- The coordinates of the unrevealed, unflagged cells, in row-major order
(the list `unrevealedCells` of `calculateProbabilities`). -/
def unrevealedUnflaggedCoords (b : GameBoard) : List Coordinate :=
  ((b.getUnrevealedCells.filter fun c => !c.isFlagged).map fun c => c.coordinates)

/-- The `constrainedCells : Set<string>` of `calculateProbabilities`. -/
def constrainedCellsSet (b : GameBoard) : List Coordinate :=
  (ConstraintSolver.extractConstraints b).foldl (fun s k => addAll s k.affectedCells) []

def constrainedCoordsOf (b : GameBoard) : List Coordinate :=
  (unrevealedUnflaggedCoords b).filter fun c => decide (c ∈ constrainedCellsSet b)

def unconstrainedCoordsOf (b : GameBoard) : List Coordinate :=
  (unrevealedUnflaggedCoords b).filter fun c => decide (c ∉ constrainedCellsSet b)

/-- `ProbabilityCalculator.calculateProbabilities`. -/
def calculateProbabilities (b : GameBoard) : ProbMap :=
  let constraints := ConstraintSolver.extractConstraints b
  let unrevealedCells := unrevealedUnflaggedCoords b
  if unrevealedCells.length = 0 then []
  else
    let constrainedCoords := constrainedCoordsOf b
    let unconstrainedCoords := unconstrainedCoordsOf b
    let m1 : ProbMap :=
      if 0 < constrainedCoords.length ∧ 0 < constraints.length then
        (calculateConstrainedProbabilities constraints constrainedCoords).foldl
          (fun m e => mapSet m e.1 e.2) []
      else []
    if 0 < unconstrainedCoords.length then
      let p := calculateUnconstrainedProbability b constrainedCoords.length
        unconstrainedCoords.length
      unconstrainedCoords.foldl (fun m c => mapSet m c p) m1
    else m1

/-- `ProbabilityCalculator.calculateInformationGain`. -/
def calculateInformationGain (coord : Coordinate) (b : GameBoard) : ℚ :=
  let adjacentCells := b.getAdjacentCells coord.x coord.y
  let unrevealedAdjacent := adjacentCells.filter fun c => !c.isRevealed && !c.isFlagged
  let revealedAdjacent := adjacentCells.filter fun c => c.isRevealed
  (unrevealedAdjacent.length : ℚ) + (revealedAdjacent.length : ℚ) * (1 / 2)

/-- `ProbabilityCalculator.handleEdgeCases`: in the early game (fewer than
10 % of cells revealed) corner probabilities are scaled by 0.8 and edge
probabilities by 0.9. -/
def handleEdgeCases (b : GameBoard) (probabilities : ProbMap) : ProbMap :=
  if (b.getRevealedCount : ℚ) < ((b.width : ℚ) * (b.height : ℚ)) * (1 / 10) then
    probabilities.map fun e =>
      if (e.1.x = 0 ∨ e.1.x = (b.width : Int) - 1) ∧
          (e.1.y = 0 ∨ e.1.y = (b.height : Int) - 1) then
        (e.1, e.2 * (4 / 5))
      else if e.1.x = 0 ∨ e.1.x = (b.width : Int) - 1 ∨
          e.1.y = 0 ∨ e.1.y = (b.height : Int) - 1 then
        (e.1, e.2 * (9 / 10))
      else e
  else probabilities

end ProbabilityCalculator

structure MoveRecommendation where
  coordinate : Coordinate
  probability : ℚ
  priority : ℚ
  reasoning : String
deriving DecidableEq, Repr

structure HintAnalysis where
  guaranteedSafe : List Coordinate
  guaranteedMines : List Coordinate
  probabilities : ProbMap
  recommendedMove : Option Coordinate
  confidence : ℚ
deriving DecidableEq, Repr

namespace HintEngine

/-- `HintEngine.calculateMovePriority`. -/
def calculateMovePriority (probability informationGain : ℚ) : ℚ :=
  ((1 - probability) * 100) * (7 / 10) + (informationGain * 10) * (3 / 10)

/-- `HintEngine.generateMoveReasoning`. -/
def generateMoveReasoning (probability : ℚ) : String :=
  if probability = 0 then "Guaranteed safe move"
  else if probability < 1 / 10 then
    s!"Very low risk ({jsRound (probability * 100)}% mine probability)"
  else if probability < 3 / 10 then
    s!"Low risk ({jsRound (probability * 100)}% mine probability)"
  else if probability < 1 / 2 then
    s!"Moderate risk ({jsRound (probability * 100)}% mine probability)"
  else if probability < 7 / 10 then
    s!"High risk ({jsRound (probability * 100)}% mine probability)"
  else
    s!"Very high risk ({jsRound (probability * 100)}% mine probability)"

/-- `HintEngine.selectBestGuaranteedSafe`: linear scan keeping the first
candidate of maximal information gain.  The TS function indexes
`safeMoves[0]`, so it is only ever called on a non-empty list; on `[]` the
model returns a dummy coordinate. -/
def selectBestGuaranteedSafe (b : GameBoard) (safeMoves : List Coordinate) : Coordinate :=
  match safeMoves with
  | [] => ⟨0, 0⟩
  | m :: rest =>
    rest.foldl
      (fun best c =>
        if ProbabilityCalculator.calculateInformationGain best b <
            ProbabilityCalculator.calculateInformationGain c b then c else best)
      m

def recommendationsOf (b : GameBoard) (probabilities : ProbMap) : List MoveRecommendation :=
  probabilities.map fun e =>
    { coordinate := e.1
      probability := e.2
      priority := calculateMovePriority e.2 (ProbabilityCalculator.calculateInformationGain e.1 b)
      reasoning := generateMoveReasoning e.2 }

/-- Stable insertion into a descending-priority list: `x` goes before the
first element whose priority does not exceed it. -/
def insertDesc (x : MoveRecommendation) : List MoveRecommendation → List MoveRecommendation
  | [] => [x]
  | y :: ys => if y.priority ≤ x.priority then x :: y :: ys else y :: insertDesc x ys

/-- The stable descending sort performed by
`recommendations.sort((a, b) => b.priority - a.priority)`. -/
def sortByPriorityDesc (l : List MoveRecommendation) : List MoveRecommendation :=
  l.foldr insertDesc []

/-- `HintEngine.selectBestProbabilisticMove`. -/
def selectBestProbabilisticMove (b : GameBoard) (probabilities : ProbMap) :
    Option MoveRecommendation :=
  let recommendations := recommendationsOf b probabilities
  if recommendations.length = 0 then none
  else (sortByPriorityDesc recommendations).head?

/-- `HintEngine.getBestMove`. -/
def getBestMove (b : GameBoard) (guaranteedMoves : GuaranteedMoves)
    (probabilities : ProbMap) : Option MoveRecommendation :=
  if 0 < guaranteedMoves.safe.length then
    some { coordinate := selectBestGuaranteedSafe b guaranteedMoves.safe
           probability := 0
           priority := 1000
           reasoning := "Guaranteed safe move" }
  else if 0 < probabilities.length then
    selectBestProbabilisticMove b probabilities
  else none

/-- `HintEngine.calculateConfidence`. -/
def calculateConfidence (guaranteedMoves : GuaranteedMoves) (probabilities : ProbMap) : ℚ :=
  if 0 < guaranteedMoves.safe.length ∨ 0 < guaranteedMoves.mines.length then 9 / 10
  else
    match probabilities.map (fun e => e.2) with
    | [] => 1 / 10
    | p :: ps =>
      let minProb := ps.foldl min p
      let maxProb := ps.foldl max p
      let spread := maxProb - minProb
      if 3 / 10 < spread then 7 / 10
      else if 1 / 10 < spread then 1 / 2
      else 3 / 10

/-- `HintEngine.analyzeBoard`. -/
def analyzeBoard (b : GameBoard) : HintAnalysis :=
  let guaranteedMoves := ConstraintSolver.findGuaranteedMoves b
  let probabilities := ProbabilityCalculator.calculateProbabilities b
  let adjustedProbabilities := ProbabilityCalculator.handleEdgeCases b probabilities
  let recommendedMove := getBestMove b guaranteedMoves adjustedProbabilities
  { guaranteedSafe := guaranteedMoves.safe
    guaranteedMines := guaranteedMoves.mines
    probabilities := adjustedProbabilities
    recommendedMove := recommendedMove.map fun r => r.coordinate
    confidence := calculateConfidence guaranteedMoves adjustedProbabilities }

/-- `probabilities.get(coord) || 0.5`: the JS `||` replaces both a missed
lookup (`undefined`) and a stored `0` by the default `0.5`. -/
def jsOrHalf (lookup : Option ℚ) : ℚ :=
  match lookup with
  | none => 1 / 2
  | some p => if p = 0 then 1 / 2 else p

structure CellRisk where
  probability : ℚ
  reasoning : String
  isGuaranteedSafe : Bool
  isGuaranteedMine : Bool
deriving DecidableEq, Repr

/-- `HintEngine.analyzeCellRisk`.  The internal probability map is keyed by
the board's own coordinate *objects*, and `Map.get` compares object
identities, so for a caller-constructed coordinate the lookup misses even
when a value-equal key is present.  The identity-based lookup outcome is
passed as the argument `lookup`: it is `none` (different object) or the
value stored at the value-equal key. -/
def analyzeCellRisk (b : GameBoard) (coord : Coordinate) (lookup : Option ℚ) : CellRisk :=
  let guaranteedMoves := ConstraintSolver.findGuaranteedMoves b
  let isGuaranteedSafe :=
    guaranteedMoves.safe.any fun s => decide (s.x = coord.x) && decide (s.y = coord.y)
  let isGuaranteedMine :=
    guaranteedMoves.mines.any fun m => decide (m.x = coord.x) && decide (m.y = coord.y)
  let probability := jsOrHalf lookup
  { probability := probability
    reasoning :=
      if isGuaranteedSafe then "Guaranteed safe by constraint analysis"
      else if isGuaranteedMine then "Guaranteed mine by constraint analysis"
      else generateMoveReasoning probability
    isGuaranteedSafe := isGuaranteedSafe
    isGuaranteedMine := isGuaranteedMine }

/-- `findGuaranteedMoves` threaded in state-passing style: the TS method only
reads the board. -/
def findGuaranteedMovesSt (b : GameBoard) : GuaranteedMoves × GameBoard :=
  (ConstraintSolver.findGuaranteedMoves b, b)

/-- `calculateProbabilities` threaded in state-passing style. -/
def calculateProbabilitiesSt (b : GameBoard) : ProbMap × GameBoard :=
  (ProbabilityCalculator.calculateProbabilities b, b)

/-- `handleEdgeCases` threaded in state-passing style. -/
def handleEdgeCasesSt (b : GameBoard) (m : ProbMap) : ProbMap × GameBoard :=
  (ProbabilityCalculator.handleEdgeCases b m, b)

/-- `getBestMove` threaded in state-passing style. -/
def getBestMoveSt (b : GameBoard) (gm : GuaranteedMoves) (m : ProbMap) :
    Option MoveRecommendation × GameBoard :=
  (getBestMove b gm m, b)

/-- `analyzeBoard` in state-passing style: every call it makes is threaded
through the board state, making the absence of mutation explicit. -/
def analyzeBoardSt (b : GameBoard) : HintAnalysis × GameBoard :=
  let gm := findGuaranteedMovesSt b
  let pr := calculateProbabilitiesSt gm.2
  let adj := handleEdgeCasesSt pr.2 pr.1
  let rec' := getBestMoveSt adj.2 gm.1 adj.1
  ({ guaranteedSafe := gm.1.safe
     guaranteedMines := gm.1.mines
     probabilities := adj.1
     recommendedMove := rec'.1.map fun r => r.coordinate
     confidence := calculateConfidence gm.1 adj.1 }, rec'.2)

end HintEngine

/-- Build a concrete board from finite data (mines, revealed cells, flags and
the stored `adjacentMines` values of revealed cells). -/
def mkBoard (width height : Nat) (mineCount : Int)
    (mines revealed flagged : List (Int × Int)) (adj : List ((Int × Int) × Int)) :
    GameBoard :=
  { width := width
    height := height
    mineCount := mineCount
    mineAt := fun x y => decide ((x, y) ∈ mines)
    revealedAt := fun x y => decide ((x, y) ∈ revealed)
    flaggedAt := fun x y => decide ((x, y) ∈ flagged)
    adjacentMinesAt := fun x y =>
      (((adj.find? fun e => decide (e.1 = (x, y))).map fun e => e.2).getD 0) }

/-- 5×1 witness board: `(1,0)`, `(2,0)`, `(3,0)` revealed with counts 0, 0, 1;
the zero rule marks `(0,0)` safe and the saturation rule marks `(4,0)` a mine. -/
def boardW1 : GameBoard :=
  mkBoard 5 1 1 [(4, 0)] [(1, 0), (2, 0), (3, 0)] []
    [((1, 0), 0), ((2, 0), 0), ((3, 0), 1)]

/-- 10×2 board with two disjoint constraint clusters: `(0,0)` shows 1 over
three neighbours (marginal 1/3 each) and `(5,0)` shows 2 with one flagged
neighbour (marginal 1/4 on four cells); background cells get 1/3. -/
def boardB2 : GameBoard :=
  mkBoard 10 2 8
    [(0, 1), (6, 0), (5, 1), (3, 0), (3, 1), (7, 0), (7, 1), (9, 1)]
    [(0, 0), (5, 0)]
    [(3, 0), (7, 0), (3, 1), (5, 1), (7, 1)]
    [((0, 0), 1), ((5, 0), 2)]

/-- 2×1 board whose only revealed cell `(0,0)` shows 0 but has a flagged
neighbour, so its remaining-mine count would be −1. -/
def boardB3 : GameBoard :=
  mkBoard 2 1 0 [] [(0, 0)] [(1, 0)] [((0, 0), 0)]

/-- 4×3 early-game board: `(0,0)` shows 3, so all three of its neighbours are
guaranteed mines with exact marginal 1. -/
def boardB4 : GameBoard :=
  mkBoard 4 3 3 [(1, 0), (0, 1), (1, 1)] [(0, 0)] [] [((0, 0), 3)]

/-- 10×1 board with a mis-flagged cell `(0,0)`: the constraints from `(1,0)`
and `(3,0)` contradict each other on `(2,0)`, while the cluster from `(6,0)`
and `(8,0)` is consistent with marginals 0, 1, 1. -/
def boardB7 : GameBoard :=
  mkBoard 10 1 4 [(2, 0), (4, 0), (7, 0), (9, 0)]
    [(1, 0), (3, 0), (6, 0), (8, 0)]
    [(0, 0), (4, 0)]
    [((1, 0), 1), ((3, 0), 2), ((6, 0), 1), ((8, 0), 2)]

/-- 6×3 board with exactly two guaranteed-safe cells: `(1,1)` with 3
unrevealed-unflagged neighbours (gain 3.5) and `(4,1)` with 2 such neighbours
but 4 revealed ones (gain 4.0). -/
def boardB8 : GameBoard :=
  mkBoard 6 3 7
    [(1, 0), (2, 0), (3, 0), (0, 1), (2, 1), (4, 0), (4, 2)]
    [(0, 0), (5, 0), (3, 1), (5, 1), (5, 2)]
    [(1, 0), (2, 0), (0, 1), (2, 1), (4, 0), (4, 2)]
    [((0, 0), 2), ((5, 0), 1), ((3, 1), 5), ((5, 1), 2), ((5, 2), 1)]

/-- 2×1 witness board: `(0,0)` revealed showing 0, `(1,0)` guaranteed safe. -/
def boardW4 : GameBoard :=
  mkBoard 2 1 0 [] [(0, 0)] [] [((0, 0), 0)]

/-! ## Claim C3 — negative required-mine constraints -/

/-- C3, counterexample.  On `boardB3` the revealed cell `(0,0)` has one
flagged neighbour and `adjacentMines = 0`, so its remaining-mine count would
be −1; contrary to the claim, `extractConstraints` emits *no* constraint at
all (the guard `remainingMines >= 0` silently drops the cell), so no
constraint with a negative required-mine count ever reaches the solver. -/
theorem c3_negative_constraint_counterexample :
    (boardB3.cellAt 0 0).isRevealed = true ∧
      ((boardB3.getAdjacentCells 0 0).filter fun c => c.isFlagged).length = 1 ∧
      (boardB3.cellAt 0 0).adjacentMines = 0 ∧
      ConstraintSolver.extractConstraints boardB3 = [] := by
  refine ⟨rfl, by decide, rfl, by decide⟩

/-- C3, amended: every constraint emitted by `extractConstraints` has a
non-negative required-mine count and a non-empty affected-cell list; a
revealed cell whose flag count exceeds its adjacent-mine count yields no
constraint (it is silently dropped at extraction time, so the solver's
negative-count check in `validateConstraints` can never fire on extracted
constraints). -/
theorem c3_extracted_constraints_nonneg (b : GameBoard) (c : Constraint)
    (hc : c ∈ ConstraintSolver.extractConstraints b) :
    0 ≤ c.requiredMines ∧ 0 < c.affectedCells.length := by
  rcases List.mem_filterMap.mp hc with ⟨cell, -, h⟩
  simp only [ConstraintSolver.extractConstraints] at h
  split at h
  · rename_i hcond
    cases h
    exact ⟨hcond.2, by simpa using hcond.1⟩
  · cases h

/-- C3 witness: the amended theorem applied to the concrete constraint
extracted from `boardW1`. -/
theorem c3_extracted_constraints_nonneg_witness :
    0 ≤ (Constraint.mk ⟨1, 0⟩ 0 [⟨0, 0⟩]).requiredMines ∧
      0 < (Constraint.mk ⟨1, 0⟩ 0 [⟨0, 0⟩]).affectedCells.length :=
  c3_extracted_constraints_nonneg boardW1 ⟨⟨1, 0⟩, 0, [⟨0, 0⟩]⟩ (by decide)

/-! ## Claim C10 — `analyzeCellRisk` never reports 0 from the map -/

/-- C10: whatever the identity-based map lookup yields (a miss for any
caller-constructed coordinate, or a stored value), the probability reported
by `analyzeCellRisk` is never 0, and whenever the lookup misses or returns a
stored 0 the reported probability is the default 0.5. -/
theorem c10_cellRisk_never_zero_from_map (b : GameBoard) (coord : Coordinate)
    (lookup : Option ℚ) :
    (HintEngine.analyzeCellRisk b coord lookup).probability ≠ 0 ∧
      ((lookup = none ∨ lookup = some 0) →
        (HintEngine.analyzeCellRisk b coord lookup).probability = 1 / 2) := by
  have hp : (HintEngine.analyzeCellRisk b coord lookup).probability =
      HintEngine.jsOrHalf lookup := rfl
  constructor
  · rw [hp]
    cases lookup with
    | none => norm_num [HintEngine.jsOrHalf]
    | some p =>
      by_cases h : p = 0
      · simp [HintEngine.jsOrHalf, h]
      · simp [HintEngine.jsOrHalf, h]
  · rintro (h | h) <;> rw [hp, h] <;> simp [HintEngine.jsOrHalf]

/-- C10 witness: at `boardB3` with a stored value 0 the reported probability
is 0.5 (and in particular non-zero). -/
theorem c10_cellRisk_never_zero_from_map_witness :
    (HintEngine.analyzeCellRisk boardB3 ⟨1, 0⟩ (some 0)).probability ≠ 0 ∧
      ((some (0 : ℚ) = none ∨ some (0 : ℚ) = some 0) →
        (HintEngine.analyzeCellRisk boardB3 ⟨1, 0⟩ (some 0)).probability = 1 / 2) :=
  c10_cellRisk_never_zero_from_map boardB3 ⟨1, 0⟩ (some 0)

/-! ## Claim C9 — analysis does not mutate the board -/

/-- C9: `analyzeBoard`, with every operation it calls threaded in
state-passing style, returns the board snapshot unchanged: the resulting
analysis is that of the input board and every cell field (`hasMine`,
`isRevealed`, `isFlagged`, `adjacentMines`) is identical before and after.
(The TS sources of `HintEngine`, `ConstraintSolver` and
`ProbabilityCalculator` contain no write to any cell or board field, which
the embedding makes explicit.) -/
theorem c9_analyzeBoard_preserves_board (b : GameBoard) :
    (HintEngine.analyzeBoardSt b).2 = b ∧
      (HintEngine.analyzeBoardSt b).1 = HintEngine.analyzeBoard b ∧
      ∀ x y : Int, ((HintEngine.analyzeBoardSt b).2.cellAt x y).hasMine =
          (b.cellAt x y).hasMine ∧
        ((HintEngine.analyzeBoardSt b).2.cellAt x y).isRevealed = (b.cellAt x y).isRevealed ∧
        ((HintEngine.analyzeBoardSt b).2.cellAt x y).isFlagged = (b.cellAt x y).isFlagged ∧
        ((HintEngine.analyzeBoardSt b).2.cellAt x y).adjacentMines =
          (b.cellAt x y).adjacentMines :=
  ⟨rfl, rfl, fun _ _ => ⟨rfl, rfl, rfl, rfl⟩⟩

/-! ## Claim C2 — lowest-risk fallback -/

/-- The constraints extracted from `boardB2`: one from each revealed cell. -/
lemma boardB2_constraints : ConstraintSolver.extractConstraints boardB2 =
    [⟨⟨0, 0⟩, 1, [⟨1, 0⟩, ⟨0, 1⟩, ⟨1, 1⟩]⟩,
     ⟨⟨5, 0⟩, 1, [⟨4, 0⟩, ⟨6, 0⟩, ⟨4, 1⟩, ⟨6, 1⟩]⟩] := by decide

/-- The 12 constraint-satisfying assignments over the 7 frontier cells of
`boardB2` (one mine among the first cluster's 3 cells, one among the second
cluster's 4). -/
lemma boardB2_valid_assignments : ProbabilityCalculator.generateValidAssignments
    [⟨⟨0, 0⟩, 1, [⟨1, 0⟩, ⟨0, 1⟩, ⟨1, 1⟩]⟩,
     ⟨⟨5, 0⟩, 1, [⟨4, 0⟩, ⟨6, 0⟩, ⟨4, 1⟩, ⟨6, 1⟩]⟩]
    [⟨1, 0⟩, ⟨4, 0⟩, ⟨6, 0⟩, ⟨0, 1⟩, ⟨1, 1⟩, ⟨4, 1⟩, ⟨6, 1⟩] =
    [3, 5, 10, 12, 18, 20, 33, 40, 48, 65, 72, 80] := by decide

set_option maxHeartbeats 1000000 in
lemma boardB2_constrained_probs :
    ProbabilityCalculator.calculateConstrainedProbabilities
      [⟨⟨0, 0⟩, 1, [⟨1, 0⟩, ⟨0, 1⟩, ⟨1, 1⟩]⟩,
       ⟨⟨5, 0⟩, 1, [⟨4, 0⟩, ⟨6, 0⟩, ⟨4, 1⟩, ⟨6, 1⟩]⟩]
      [⟨1, 0⟩, ⟨4, 0⟩, ⟨6, 0⟩, ⟨0, 1⟩, ⟨1, 1⟩, ⟨4, 1⟩, ⟨6, 1⟩] =
    [(⟨1, 0⟩, 1 / 3), (⟨4, 0⟩, 1 / 4), (⟨6, 0⟩, 1 / 4), (⟨0, 1⟩, 1 / 3),
     (⟨1, 1⟩, 1 / 3), (⟨4, 1⟩, 1 / 4), (⟨6, 1⟩, 1 / 4)] := by
  norm_num [ProbabilityCalculator.calculateConstrainedProbabilities, boardB2_valid_assignments,
    ProbabilityCalculator.assignFun, mapGet, mapSet, addCoord, addAll, jsSet,
    List.foldl, List.filter, List.countP, List.countP.go]

set_option maxHeartbeats 1000000 in
lemma boardB2_prob_map : ProbabilityCalculator.calculateProbabilities boardB2 =
    [(⟨1, 0⟩, 1 / 3), (⟨4, 0⟩, 1 / 4), (⟨6, 0⟩, 1 / 4), (⟨0, 1⟩, 1 / 3),
     (⟨1, 1⟩, 1 / 3), (⟨4, 1⟩, 1 / 4), (⟨6, 1⟩, 1 / 4),
     (⟨2, 0⟩, 1 / 3), (⟨8, 0⟩, 1 / 3), (⟨9, 0⟩, 1 / 3),
     (⟨2, 1⟩, 1 / 3), (⟨8, 1⟩, 1 / 3), (⟨9, 1⟩, 1 / 3)] := by
  have huul : ProbabilityCalculator.unrevealedUnflaggedCoords boardB2 =
      [⟨1, 0⟩, ⟨2, 0⟩, ⟨4, 0⟩, ⟨6, 0⟩, ⟨8, 0⟩, ⟨9, 0⟩, ⟨0, 1⟩, ⟨1, 1⟩, ⟨2, 1⟩,
       ⟨4, 1⟩, ⟨6, 1⟩, ⟨8, 1⟩, ⟨9, 1⟩] := by decide
  have hcc : ProbabilityCalculator.constrainedCoordsOf boardB2 =
      [⟨1, 0⟩, ⟨4, 0⟩, ⟨6, 0⟩, ⟨0, 1⟩, ⟨1, 1⟩, ⟨4, 1⟩, ⟨6, 1⟩] := by decide
  have huc : ProbabilityCalculator.unconstrainedCoordsOf boardB2 =
      [⟨2, 0⟩, ⟨8, 0⟩, ⟨9, 0⟩, ⟨2, 1⟩, ⟨8, 1⟩, ⟨9, 1⟩] := by decide
  have hrm : (boardB2.getRevealedCells.filter fun c => c.hasMine).length = 0 := by decide
  have hfc : boardB2.getFlaggedCount = 5 := by decide
  have hmc : boardB2.getMineCount = 8 := rfl
  have hjr : jsRound ((7 : ℚ) / 5) = 1 := by
    rw [jsRound, Int.floor_eq_iff]; norm_num
  have hup : ProbabilityCalculator.calculateUnconstrainedProbability boardB2 7 6 = 1 / 3 := by
    rw [ProbabilityCalculator.calculateUnconstrainedProbability]
    simp only [hmc, hfc, hrm]
    norm_num [hjr, min_def, max_def]
  simp only [ProbabilityCalculator.calculateProbabilities, huul, hcc, huc,
    boardB2_constraints, boardB2_constrained_probs, List.length_cons, List.length_nil]
  norm_num [hup, mapSet, addCoord, addAll, List.foldl, List.any, List.find?]

/-- On `boardB2` the early-game adjustment does not fire (2 revealed cells is
not below the 10 % threshold of 2), so `analyzeBoard` returns the raw map. -/
lemma boardB2_adjusted_map : (HintEngine.analyzeBoard boardB2).probabilities =
    [(⟨1, 0⟩, 1 / 3), (⟨4, 0⟩, 1 / 4), (⟨6, 0⟩, 1 / 4), (⟨0, 1⟩, 1 / 3),
     (⟨1, 1⟩, 1 / 3), (⟨4, 1⟩, 1 / 4), (⟨6, 1⟩, 1 / 4),
     (⟨2, 0⟩, 1 / 3), (⟨8, 0⟩, 1 / 3), (⟨9, 0⟩, 1 / 3),
     (⟨2, 1⟩, 1 / 3), (⟨8, 1⟩, 1 / 3), (⟨9, 1⟩, 1 / 3)] := by
  have hrc : boardB2.getRevealedCount = 2 := by decide
  show ProbabilityCalculator.handleEdgeCases boardB2
      (ProbabilityCalculator.calculateProbabilities boardB2) = _
  rw [boardB2_prob_map, ProbabilityCalculator.handleEdgeCases, hrc]
  norm_num [mkBoard, boardB2]

set_option maxHeartbeats 2000000 in
/-- C2, counterexample.  On `boardB2` no guaranteed-safe cell exists and the
probability map is non-empty, yet the recommended move `(1,0)` has
probability 1/3 while the map also contains the strictly smaller value 1/4
(at `(4,0)`): the move-priority formula lets information gain outweigh the
probability difference, so the recommendation does not have the minimum
probability present in the map. -/
theorem c2_lowest_risk_counterexample :
    (ConstraintSolver.findGuaranteedMoves boardB2).safe = [] ∧
      (HintEngine.analyzeBoard boardB2).probabilities ≠ [] ∧
      (HintEngine.analyzeBoard boardB2).recommendedMove = some ⟨1, 0⟩ ∧
      mapGet (HintEngine.analyzeBoard boardB2).probabilities ⟨1, 0⟩ = some (1 / 3) ∧
      mapGet (HintEngine.analyzeBoard boardB2).probabilities ⟨4, 0⟩ = some (1 / 4) ∧
      (1 / 4 : ℚ) < 1 / 3 := by
  have hgm : ConstraintSolver.findGuaranteedMoves boardB2 = ⟨[], []⟩ := by decide
  refine ⟨by decide, ?_, ?_, ?_, ?_, by norm_num⟩
  · rw [boardB2_adjusted_map]; simp
  · have h1 : (HintEngine.analyzeBoard boardB2).recommendedMove =
        (HintEngine.getBestMove boardB2 (ConstraintSolver.findGuaranteedMoves boardB2)
            ((HintEngine.analyzeBoard boardB2).probabilities)).map
          (fun r => r.coordinate) := rfl
    rw [h1, hgm, boardB2_adjusted_map]
    norm_num [HintEngine.getBestMove, HintEngine.selectBestProbabilisticMove,
      HintEngine.recommendationsOf, HintEngine.sortByPriorityDesc, HintEngine.insertDesc,
      HintEngine.calculateMovePriority, ProbabilityCalculator.calculateInformationGain,
      GameBoard.getAdjacentCells, GameBoard.adjacentCoords, GameBoard.isValidCoordinate,
      GameBoard.neighborOffsets, GameBoard.cellAt, mkBoard, boardB2,
      List.filterMap, List.filter, List.foldr]
  · rw [boardB2_adjusted_map]; norm_num [mapGet, List.find?]
  · rw [boardB2_adjusted_map]; norm_num [mapGet, List.find?]

/-! ## Claim C4 — adjustment vs. guaranteed cells -/

set_option maxHeartbeats 1000000 in
/-- C4, counterexample.  On the early-game board `boardB4` the cell `(1,0)`
is in `guaranteedMines`, but the edge adjustment scales its probability-1
entry by 0.9: the map returned by `analyzeBoard` stores 9/10 ≠ 1 for it. -/
theorem c4_adjustment_reclassifies_counterexample :
    (HintEngine.analyzeBoard boardB4).guaranteedMines = [⟨1, 0⟩, ⟨0, 1⟩, ⟨1, 1⟩] ∧
      mapGet (HintEngine.analyzeBoard boardB4).probabilities ⟨1, 0⟩ = some (9 / 10) ∧
      (9 / 10 : ℚ) ≠ 1 := by
  refine ⟨by decide, ?_, by norm_num⟩
  norm_num [HintEngine.analyzeBoard,
    ProbabilityCalculator.calculateProbabilities, ProbabilityCalculator.handleEdgeCases,
    ProbabilityCalculator.calculateConstrainedProbabilities,
    ProbabilityCalculator.generateValidAssignments, ProbabilityCalculator.isValidAssignment,
    ProbabilityCalculator.assignFun, ProbabilityCalculator.calculateUnconstrainedProbability,
    ProbabilityCalculator.unrevealedUnflaggedCoords, ProbabilityCalculator.constrainedCellsSet,
    ProbabilityCalculator.constrainedCoordsOf, ProbabilityCalculator.unconstrainedCoordsOf,
    ConstraintSolver.extractConstraints,
    GameBoard.getRevealedCells, GameBoard.getUnrevealedCells, GameBoard.getFlaggedCells,
    GameBoard.getRevealedCount, GameBoard.getFlaggedCount, GameBoard.getMineCount,
    GameBoard.boardCells, GameBoard.allCoords, GameBoard.cellAt, GameBoard.getAdjacentCells,
    GameBoard.adjacentCoords, GameBoard.isValidCoordinate, GameBoard.neighborOffsets,
    mkBoard, boardB4, mapGet, mapSet, addCoord, addAll, jsSet, jsRound,
    List.range_succ, List.foldl, List.filterMap, List.filter, List.flatMap, List.enum]

/-! ## Claim C7 — joint vs. separate enumeration -/

/-- The four constraints of `boardB7` form two components sharing no affected
cell; the first (cells `{(2,0)}`) is inconsistent because of the wrong flag at
`(0,0)`. -/
lemma boardB7_constraints : ConstraintSolver.extractConstraints boardB7 =
    [⟨⟨1, 0⟩, 0, [⟨2, 0⟩]⟩, ⟨⟨3, 0⟩, 1, [⟨2, 0⟩]⟩,
     ⟨⟨6, 0⟩, 1, [⟨5, 0⟩, ⟨7, 0⟩]⟩, ⟨⟨8, 0⟩, 2, [⟨7, 0⟩, ⟨9, 0⟩]⟩] := by decide

lemma boardB7_joint_valid_empty : ProbabilityCalculator.generateValidAssignments
    (ConstraintSolver.extractConstraints boardB7)
    (ProbabilityCalculator.constrainedCoordsOf boardB7) = [] := by decide

lemma boardB7_separate_valid : ProbabilityCalculator.generateValidAssignments
    [⟨⟨6, 0⟩, 1, [⟨5, 0⟩, ⟨7, 0⟩]⟩, ⟨⟨8, 0⟩, 2, [⟨7, 0⟩, ⟨9, 0⟩]⟩]
    [⟨5, 0⟩, ⟨7, 0⟩, ⟨9, 0⟩] = [6] := by decide

/-- C7, counterexample.  On `boardB7` the constraint set splits into two
components sharing no affected cell — `{(2,0)}` (from `(1,0)` and `(3,0)`)
and `{(5,0),(7,0),(9,0)}` (from `(6,0)` and `(8,0)`).  The first component is
inconsistent (required counts 0 and 1 over the same single cell), so the
joint enumeration finds no valid assignment and assigns the uniform 1/2 to
*every* frontier cell, while the separate enumeration of the second,
consistent component yields exact marginals: the per-cell probabilities
differ at `(5,0)` (1/2 jointly against 0 separately). -/
theorem c7_joint_vs_separate_counterexample :
    ConstraintSolver.extractConstraints boardB7 =
        [⟨⟨1, 0⟩, 0, [⟨2, 0⟩]⟩, ⟨⟨3, 0⟩, 1, [⟨2, 0⟩]⟩] ++
          [⟨⟨6, 0⟩, 1, [⟨5, 0⟩, ⟨7, 0⟩]⟩, ⟨⟨8, 0⟩, 2, [⟨7, 0⟩, ⟨9, 0⟩]⟩] ∧
      ProbabilityCalculator.constrainedCoordsOf boardB7 =
        [⟨2, 0⟩] ++ [⟨5, 0⟩, ⟨7, 0⟩, ⟨9, 0⟩] ∧
      (∀ a ∈ [Coordinate.mk 2 0], a ∉ [Coordinate.mk 5 0, ⟨7, 0⟩, ⟨9, 0⟩]) ∧
      mapGet
          (ProbabilityCalculator.calculateConstrainedProbabilities
            (ConstraintSolver.extractConstraints boardB7)
            (ProbabilityCalculator.constrainedCoordsOf boardB7)) ⟨5, 0⟩ = some (1 / 2) ∧
      mapGet
          (ProbabilityCalculator.calculateConstrainedProbabilities
            [⟨⟨6, 0⟩, 1, [⟨5, 0⟩, ⟨7, 0⟩]⟩, ⟨⟨8, 0⟩, 2, [⟨7, 0⟩, ⟨9, 0⟩]⟩]
            [⟨5, 0⟩, ⟨7, 0⟩, ⟨9, 0⟩]) ⟨5, 0⟩ = some 0 ∧
      some (1 / 2 : ℚ) ≠ some (0 : ℚ) := by
  have hcc : ProbabilityCalculator.constrainedCoordsOf boardB7 =
      [⟨2, 0⟩, ⟨5, 0⟩, ⟨7, 0⟩, ⟨9, 0⟩] := by decide
  refine ⟨by decide, by decide, by decide, ?_, ?_, by norm_num⟩
  · rw [ProbabilityCalculator.calculateConstrainedProbabilities]
    simp only [boardB7_joint_valid_empty, hcc]
    norm_num [mapGet, mapSet, addCoord, addAll, List.foldl, List.find?]
  · rw [ProbabilityCalculator.calculateConstrainedProbabilities]
    simp only [boardB7_separate_valid]
    norm_num [ProbabilityCalculator.assignFun, mapGet, mapSet, addCoord, addAll,
      List.foldl, List.find?, List.countP, List.countP.go]

/-! ## Claim C8 — information-gain tie-break -/

/-- C8, counterexample.  On `boardB8` the guaranteed-safe candidates are
`(1,1)` with 3 unrevealed-unflagged neighbours and `(4,1)` with only 2; yet
`(4,1)` is recommended, because its four revealed neighbours give it the
larger information gain (2 + 0.5·4 = 4 against 3 + 0.5·1 = 3.5). -/
theorem c8_more_unrevealed_counterexample :
    (ConstraintSolver.findGuaranteedMoves boardB8).safe = [⟨1, 1⟩, ⟨4, 1⟩] ∧
      ((boardB8.getAdjacentCells 1 1).filter fun c => !c.isRevealed && !c.isFlagged).length
          = 3 ∧
      ((boardB8.getAdjacentCells 4 1).filter fun c => !c.isRevealed && !c.isFlagged).length
          = 2 ∧
      (HintEngine.analyzeBoard boardB8).recommendedMove = some ⟨4, 1⟩ := by
  have hgm : ConstraintSolver.findGuaranteedMoves boardB8 =
      ⟨[⟨1, 1⟩, ⟨4, 1⟩], []⟩ := by decide
  have hsel : HintEngine.selectBestGuaranteedSafe boardB8 [⟨1, 1⟩, ⟨4, 1⟩] = ⟨4, 1⟩ := by
    rw [HintEngine.selectBestGuaranteedSafe]
    norm_num [ProbabilityCalculator.calculateInformationGain, GameBoard.getAdjacentCells,
      GameBoard.adjacentCoords, GameBoard.isValidCoordinate, GameBoard.neighborOffsets,
      GameBoard.cellAt, mkBoard, boardB8, List.filterMap, List.filter, List.foldl]
  refine ⟨by decide, by decide, by decide, ?_⟩
  have h1 : (HintEngine.analyzeBoard boardB8).recommendedMove =
      (HintEngine.getBestMove boardB8 (ConstraintSolver.findGuaranteedMoves boardB8)
          ((HintEngine.analyzeBoard boardB8).probabilities)).map
        (fun r => r.coordinate) := rfl
  rw [h1, hgm, HintEngine.getBestMove]
  norm_num [hsel]

/-! ## Claim C1 — soundness of the guaranteed-move deductions -/

lemma mem_addCoord {l : List Coordinate} {c p : Coordinate} :
    p ∈ addCoord l c ↔ p ∈ l ∨ p = c := by
  unfold addCoord
  split
  · rename_i h
    constructor
    · exact Or.inl
    · rintro (hp | rfl)
      · exact hp
      · exact h
  · simp [or_comm]

lemma mem_addAll {cs : List Coordinate} {l : List Coordinate} {p : Coordinate} :
    p ∈ addAll l cs ↔ p ∈ l ∨ p ∈ cs := by
  induction cs generalizing l with
  | nil => simp [addAll]
  | cons a t ih =>
    show p ∈ addAll (addCoord l a) t ↔ _
    rw [ih, mem_addCoord]
    simp [or_assoc, or_comm, or_left_comm]

lemma mem_jsSet {l : List Coordinate} {p : Coordinate} : p ∈ jsSet l ↔ p ∈ l := by
  rw [jsSet, mem_addAll]
  simp

lemma addAll_eq_append {l cs : List Coordinate} (hnd : cs.Nodup)
    (hdis : ∀ x ∈ cs, x ∉ l) : addAll l cs = l ++ cs := by
  induction cs generalizing l with
  | nil => simp [addAll]
  | cons a t ih =>
    have ha : addCoord l a = l ++ [a] := by
      unfold addCoord
      rw [if_neg (hdis a (by simp))]
    show addAll (addCoord l a) t = _
    rw [ha, ih hnd.of_cons]
    · simp
    · intro x hx
      simp only [List.mem_append, List.mem_singleton]
      rintro (hxl | rfl)
      · exact hdis x (by simp [hx]) hxl
      · exact (List.nodup_cons.mp hnd).1 hx

lemma jsSet_eq_self {l : List Coordinate} (h : l.Nodup) : jsSet l = l := by
  rw [jsSet, addAll_eq_append h (by simp)]
  simp

/-- The coordinates of the valid neighbours of a position are pairwise
distinct. -/
lemma adjacentCoords_nodup (b : GameBoard) (x y : Int) : (b.adjacentCoords x y).Nodup := by
  apply List.Nodup.filterMap
  · intro d d' c hc hc'
    simp only [Option.mem_def] at hc hc'
    split at hc
    · split at hc'
      · have heq := (Option.some.inj hc).trans (Option.some.inj hc').symm
        have hx : x + d.1 = x + d'.1 := congrArg Coordinate.x heq
        have hy : y + d.2 = y + d'.2 := congrArg Coordinate.y heq
        have e1 : d.1 = d'.1 := by omega
        have e2 : d.2 = d'.2 := by omega
        cases d; cases d'
        simp_all
      · cases hc'
    · cases hc
  · decide

/-- Every constraint produced by `extractConstraints` has duplicate-free
affected cells, and they are exactly the unrevealed, unflagged neighbours of
the (revealed) centre cell. -/
lemma extract_affected_eq {b : GameBoard} {c : Constraint}
    (hc : c ∈ ConstraintSolver.extractConstraints b) :
    c.affectedCells = (b.adjacentCoords c.centerCell.x c.centerCell.y).filter
      (fun q => !(b.cellAt q.x q.y).isRevealed && !(b.cellAt q.x q.y).isFlagged) := by
  rcases List.mem_filterMap.mp hc with ⟨cell, hcell, h⟩
  simp only [ConstraintSolver.extractConstraints] at h
  split at h
  · rename_i hcond
    cases h
    simp only [GameBoard.getAdjacentCells, List.filter_map, List.map_map]
    have hid : ((fun cc : Cell => cc.coordinates) ∘ fun cc : Coordinate => b.cellAt cc.x cc.y)
        = id := rfl
    rw [hid, List.map_id]
    rfl
  · cases h

lemma extract_affected_nodup {b : GameBoard} {c : Constraint}
    (hc : c ∈ ConstraintSolver.extractConstraints b) : c.affectedCells.Nodup := by
  rw [extract_affected_eq hc]
  exact (adjacentCoords_nodup b _ _).filter _

/-- Generic preservation of an invariant along a left fold. -/
lemma foldl_preserve {α β : Type} {P : β → Prop} {step : β → α → β} {l : List α} {init : β}
    (h0 : P init) (hstep : ∀ acc x, x ∈ l → P acc → P (step acc x)) :
    P (l.foldl step init) := by
  induction l generalizing init with
  | nil => exact h0
  | cons a t ih =>
    exact ih (hstep init a (by simp) h0) fun acc x hx hacc => hstep acc x (by simp [hx]) hacc

lemma snd_mem_of_mem_enum {α : Type} {l : List α} {x : Nat × α} (hx : x ∈ l.enum) :
    x.2 ∈ l := by
  have := List.enum_map_snd l
  rw [← this]
  exact List.mem_map_of_mem _ hx

lemma constraintPairs_mem {cs : List Constraint} {p : Constraint × Constraint}
    (hp : p ∈ ConstraintSolver.constraintPairs cs) : p.1 ∈ cs ∧ p.2 ∈ cs := by
  rcases List.mem_flatMap.mp hp with ⟨ci, hci, hmem⟩
  rcases List.mem_filterMap.mp hmem with ⟨cj, hcj, h⟩
  split at h
  · cases h
  · cases h
    exact ⟨snd_mem_of_mem_enum hci, snd_mem_of_mem_enum hcj⟩

lemma countP_subset_split {l1 l2 : List Coordinate} (q : Coordinate → Bool)
    (h1 : l1.Nodup) (h2 : l2.Nodup) (hsub : ∀ x ∈ l1, x ∈ l2) :
    l2.countP q = l1.countP q + (l2.filter fun x => decide (x ∉ l1)).countP q := by
  have heq : (l2.filter fun x => decide (x ∉ l1)) =
      (l2.filter fun x => !decide (x ∈ l1)) := by
    apply List.filter_congr
    intro x _
    simp
  have hperm : List.Perm
      (l2.filter (fun x => decide (x ∈ l1)) ++ l2.filter fun x => decide (x ∉ l1)) l2 := by
    rw [heq]
    exact List.filter_append_perm (fun x => decide (x ∈ l1)) l2
  have hcnt := hperm.countP_eq q
  rw [List.countP_append] at hcnt
  have hpermin : List.Perm (l2.filter fun x => decide (x ∈ l1)) l1 := by
    rw [List.perm_ext_iff_of_nodup (h2.filter _) h1]
    intro a
    simp only [List.mem_filter, decide_eq_true_eq]
    constructor
    · exact fun h => h.2
    · exact fun h => ⟨hsub a h, h⟩
  rw [hpermin.countP_eq q] at hcnt
  omega

/-- The zero rule and the saturation rule are sound for any assignment
meeting the constraint exactly. -/
lemma simpleRulesStep_sound {f : Coordinate → Bool} {acc : List Coordinate × List Coordinate}
    {c : Constraint}
    (hsat : ((c.affectedCells.countP fun a => f a : Nat) : Int) = c.requiredMines)
    (h1 : ∀ p ∈ acc.1, f p = false) (h2 : ∀ p ∈ acc.2, f p = true) :
    (∀ p ∈ (ConstraintSolver.simpleRulesStep acc c).1, f p = false) ∧
      (∀ p ∈ (ConstraintSolver.simpleRulesStep acc c).2, f p = true) := by
  unfold ConstraintSolver.simpleRulesStep
  split
  · rename_i h0
    have hz : c.affectedCells.countP (fun a => f a) = 0 := by omega
    refine ⟨?_, h2⟩
    intro p hp
    rcases mem_addAll.mp hp with hp | hp
    · exact h1 p hp
    · have := List.countP_eq_zero.mp hz p hp
      simpa using this
  · split
    · rename_i hcond
      have hlen : c.affectedCells.countP (fun a => f a) = c.affectedCells.length := by omega
      refine ⟨h1, ?_⟩
      intro p hp
      rcases mem_addAll.mp hp with hp | hp
      · exact h2 p hp
      · exact List.countP_eq_length.mp hlen p hp
    · exact ⟨h1, h2⟩

/-- The subset/superset rule is sound for any assignment meeting both
constraints exactly, given duplicate-free affected-cell lists. -/
lemma subsetStep_sound {f : Coordinate → Bool} {acc : List Coordinate × List Coordinate}
    {p : Constraint × Constraint}
    (hnd1 : p.1.affectedCells.Nodup) (hnd2 : p.2.affectedCells.Nodup)
    (hsat1 : ((p.1.affectedCells.countP fun a => f a : Nat) : Int) = p.1.requiredMines)
    (hsat2 : ((p.2.affectedCells.countP fun a => f a : Nat) : Int) = p.2.requiredMines)
    (h1 : ∀ q ∈ acc.1, f q = false) (h2 : ∀ q ∈ acc.2, f q = true) :
    (∀ q ∈ (ConstraintSolver.subsetStep acc p).1, f q = false) ∧
      (∀ q ∈ (ConstraintSolver.subsetStep acc p).2, f q = true) := by
  simp only [ConstraintSolver.subsetStep, jsSet_eq_self hnd1, jsSet_eq_self hnd2]
  split
  · rename_i hall
    have hsub : ∀ x ∈ p.1.affectedCells, x ∈ p.2.affectedCells := by
      intro x hx
      have := List.all_eq_true.mp hall x hx
      simpa using this
    have hcnt := countP_subset_split (fun a => f a) hnd1 hnd2 hsub
    split
    · rename_i hdiff0
      have hz : (p.2.affectedCells.filter fun x => decide (x ∉ p.1.affectedCells)).countP
          (fun a => f a) = 0 := by omega
      refine ⟨?_, h2⟩
      intro q hq
      rcases mem_addAll.mp hq with hq | hq
      · exact h1 q hq
      · simpa using List.countP_eq_zero.mp hz q hq
    · split
      · rename_i hdiffm
        have hlen : (p.2.affectedCells.filter fun x => decide (x ∉ p.1.affectedCells)).countP
            (fun a => f a) =
            (p.2.affectedCells.filter fun x => decide (x ∉ p.1.affectedCells)).length := by
          omega
        refine ⟨h1, ?_⟩
        intro q hq
        rcases mem_addAll.mp hq with hq | hq
        · exact h2 q hq
        · exact List.countP_eq_length.mp hlen q hq
      · exact ⟨h1, h2⟩
  · exact ⟨h1, h2⟩

/-- C1: the guaranteed-move deductions of `findGuaranteedMoves` (zero rule,
saturation rule and subset rule) are sound.  For every board and every
complete mine assignment `f` that puts exactly the required number of mines
on every extracted constraint's affected cells, every coordinate in the
returned `safe` list is mine-free under `f`, and every coordinate in the
returned `mines` list is a mine under `f`. -/
theorem c1_findGuaranteedMoves_sound (b : GameBoard) (f : Coordinate → Bool)
    (hf : ∀ c ∈ ConstraintSolver.extractConstraints b,
      ((c.affectedCells.countP fun a => f a : Nat) : Int) = c.requiredMines) :
    (∀ p ∈ (ConstraintSolver.findGuaranteedMoves b).safe, f p = false) ∧
      (∀ p ∈ (ConstraintSolver.findGuaranteedMoves b).mines, f p = true) := by
  have hsimple :
      (∀ p ∈ ((ConstraintSolver.extractConstraints b).foldl
          ConstraintSolver.simpleRulesStep ([], [])).1, f p = false) ∧
        (∀ p ∈ ((ConstraintSolver.extractConstraints b).foldl
          ConstraintSolver.simpleRulesStep ([], [])).2, f p = true) := by
    refine foldl_preserve
      (P := fun acc : List Coordinate × List Coordinate =>
        (∀ p ∈ acc.1, f p = false) ∧ (∀ p ∈ acc.2, f p = true))
      ⟨by simp, by simp⟩ ?_
    intro acc c hc hacc
    exact simpleRulesStep_sound (hf c hc) hacc.1 hacc.2
  refine foldl_preserve
    (P := fun acc : List Coordinate × List Coordinate =>
      (∀ p ∈ acc.1, f p = false) ∧ (∀ p ∈ acc.2, f p = true))
    hsimple ?_
  intro acc pr hpr hacc
  have hmem := constraintPairs_mem hpr
  exact subsetStep_sound (extract_affected_nodup hmem.1) (extract_affected_nodup hmem.2)
    (hf pr.1 hmem.1) (hf pr.2 hmem.2) hacc.1 hacc.2

/-- C1 witness: on `boardW1` the solver marks `(0,0)` safe and `(4,0)` a
mine; the assignment with a mine exactly at `(4,0)` meets both constraints,
and the soundness theorem instantiates to it. -/
theorem c1_findGuaranteedMoves_sound_witness :
    (∀ c ∈ ConstraintSolver.extractConstraints boardW1,
        ((c.affectedCells.countP fun a => decide (a = ⟨4, 0⟩) : Nat) : Int) =
          c.requiredMines) ∧
      (∀ p ∈ (ConstraintSolver.findGuaranteedMoves boardW1).safe,
        decide (p = (⟨4, 0⟩ : Coordinate)) = false) ∧
      (∀ p ∈ (ConstraintSolver.findGuaranteedMoves boardW1).mines,
        decide (p = (⟨4, 0⟩ : Coordinate)) = true) :=
  ⟨by decide,
    (c1_findGuaranteedMoves_sound boardW1 (fun a => decide (a = ⟨4, 0⟩)) (by decide)).1,
    (c1_findGuaranteedMoves_sound boardW1 (fun a => decide (a = ⟨4, 0⟩)) (by decide)).2⟩

/-! ## Association-list map lemmas -/

lemma find?_map_update (m : ProbMap) (k : Coordinate) (v : ℚ) (c : Coordinate) :
    (m.map fun e => if e.1 = k then (k, v) else e).find? (fun e => decide (e.1 = c)) =
      (m.find? fun e => decide (e.1 = c)).map fun e => if e.1 = k then (k, v) else e := by
  induction m with
  | nil => rfl
  | cons a t ih =>
    have hfa1 : (if a.1 = k then (k, v) else a).1 = a.1 := by
      by_cases hak : a.1 = k
      · simp [hak]
      · simp [hak]
    by_cases hac : a.1 = c
    · rw [List.map_cons, List.find?_cons_of_pos _ (by simp only [hfa1]; exact decide_eq_true hac),
        @List.find?_cons_of_pos _ (fun e : Coordinate × ℚ => decide (e.1 = c)) a t
          (decide_eq_true hac)]
      simp
    · rw [List.map_cons, List.find?_cons_of_neg _ (by simp only [hfa1]; simpa using hac),
        @List.find?_cons_of_neg _ (fun e : Coordinate × ℚ => decide (e.1 = c)) a t
          (by simpa using hac)]
      exact ih

lemma mapGet_mapSet_self (m : ProbMap) (k : Coordinate) (v : ℚ) :
    mapGet (mapSet m k v) k = some v := by
  unfold mapSet
  split
  · rename_i hany
    rcases List.any_eq_true.mp hany with ⟨e0, he0, hk0⟩
    have hk0 : e0.1 = k := of_decide_eq_true hk0
    have hne : ¬ (m.find? fun e => decide (e.1 = k)) = none := by
      rw [List.find?_eq_none]
      intro h
      exact absurd (decide_eq_true hk0) (by simpa using h e0 he0)
    rcases Option.ne_none_iff_exists.mp hne with ⟨e1, he1⟩
    have hp := @List.find?_some _ (fun e => decide (e.1 = k)) e1 m he1.symm
    have he1p : e1.1 = k := by simpa using hp
    rw [mapGet, find?_map_update, ← he1]
    simp [he1p]
  · rename_i hany
    have hnone : (m.find? fun e => decide (e.1 = k)) = none := by
      rw [List.find?_eq_none]
      intro e he hek
      exact hany (List.any_eq_true.mpr ⟨e, he, hek⟩)
    rw [mapGet, List.find?_append, hnone]
    simp [List.find?]

lemma mapGet_mapSet_ne (m : ProbMap) (k : Coordinate) (v : ℚ) (c : Coordinate)
    (h : c ≠ k) : mapGet (mapSet m k v) c = mapGet m c := by
  unfold mapSet
  split
  · rw [mapGet, find?_map_update, mapGet]
    cases hfind : m.find? fun e => decide (e.1 = c) with
    | none => simp
    | some e0 =>
      have hp := @List.find?_some _ (fun e => decide (e.1 = c)) e0 m hfind
      have he0p : e0.1 = c := by simpa using hp
      have : ¬ e0.1 = k := fun hk => h (he0p ▸ hk ▸ rfl)
      simp [this]
  · rw [mapGet, List.find?_append, mapGet]
    have htail : (([(k, v)] : ProbMap).find? fun e => decide (e.1 = c)) = none := by
      have : ¬ (k = c) := fun hc => h hc.symm
      simp [List.find?, this]
    cases hfind : m.find? fun e => decide (e.1 = c) <;> simp [hfind, htail]

lemma mem_mapSet_elim {m : ProbMap} {k : Coordinate} {v : ℚ} {e : Coordinate × ℚ}
    (he : e ∈ mapSet m k v) : e ∈ m ∨ e = (k, v) := by
  unfold mapSet at he
  split at he
  · rcases List.mem_map.mp he with ⟨e', he', rfl⟩
    by_cases h : e'.1 = k
    · simp [h]
    · simp [h]
      exact Or.inl he'
  · rcases List.mem_append.mp he with h | h
    · exact Or.inl h
    · simp at h
      exact Or.inr h

lemma mapKeys_mapSet_mem {m : ProbMap} {k : Coordinate} (v : ℚ)
    (h : k ∈ mapKeys m) : mapKeys (mapSet m k v) = mapKeys m := by
  unfold mapSet
  rw [if_pos]
  · unfold mapKeys
    rw [List.map_map]
    apply List.map_congr_left
    intro e _
    by_cases he : e.1 = k
    · simp [Function.comp, he]
    · simp [Function.comp, he]
  · rcases List.mem_map.mp h with ⟨e, he, hek⟩
    exact List.any_eq_true.mpr ⟨e, he, decide_eq_true hek⟩

lemma mapKeys_mapSet_notmem {m : ProbMap} {k : Coordinate} (v : ℚ)
    (h : k ∉ mapKeys m) : mapKeys (mapSet m k v) = mapKeys m ++ [k] := by
  unfold mapSet
  rw [if_neg]
  · simp [mapKeys]
  · intro hany
    rcases List.any_eq_true.mp hany with ⟨e, he, hek⟩
    exact h (List.mem_map.mpr ⟨e, he, of_decide_eq_true hek⟩)

/-- Value of a fold of `mapSet`s with a key-determined value function. -/
lemma mapGet_fold_set (l : List Coordinate) (v : Coordinate → ℚ) (m0 : ProbMap)
    (c : Coordinate) :
    mapGet (l.foldl (fun m k => mapSet m k (v k)) m0) c =
      if c ∈ l then some (v c) else mapGet m0 c := by
  induction l generalizing m0 with
  | nil => simp
  | cons a t ih =>
    show mapGet (t.foldl (fun m k => mapSet m k (v k)) (mapSet m0 a (v a))) c = _
    rw [ih]
    by_cases hct : c ∈ t
    · simp [hct, List.mem_cons]
    · by_cases hca : c = a
      · subst hca
        simp [hct, mapGet_mapSet_self]
      · simp [hct, hca, mapGet_mapSet_ne m0 a (v a) c hca]

/-- Keys of a fold of `mapSet`s over fresh, duplicate-free keys. -/
lemma mapKeys_fold_set_fresh (l : List Coordinate) (v : Coordinate → ℚ) :
    ∀ m0 : ProbMap, l.Nodup → (∀ k ∈ l, k ∉ mapKeys m0) →
      mapKeys (l.foldl (fun m k => mapSet m k (v k)) m0) = mapKeys m0 ++ l := by
  induction l with
  | nil =>
    intro m0 _ _
    simp
  | cons a t ih =>
    intro m0 hnd hdis
    have ha : a ∉ mapKeys m0 := hdis a (by simp)
    have hside : ∀ k ∈ t, k ∉ mapKeys (mapSet m0 a (v a)) := by
      intro k hk
      rw [mapKeys_mapSet_notmem _ ha]
      simp only [List.mem_append, List.mem_singleton]
      rintro (hkm | rfl)
      · exact hdis k (by simp [hk]) hkm
      · exact (List.nodup_cons.mp hnd).1 hk
    have hstep := ih (mapSet m0 a (v a)) hnd.of_cons hside
    show mapKeys (t.foldl (fun m k => mapSet m k (v k)) (mapSet m0 a (v a))) = _
    rw [hstep, mapKeys_mapSet_notmem _ ha]
    simp

/-- Keys of a fold of `mapSet`s over keys all already present. -/
lemma mapKeys_fold_set_subset (l : List Coordinate) (v : Coordinate → ℚ) :
    ∀ m0 : ProbMap, (∀ k ∈ l, k ∈ mapKeys m0) →
      mapKeys (l.foldl (fun m k => mapSet m k (v k)) m0) = mapKeys m0 := by
  induction l with
  | nil =>
    intro m0 _
    simp
  | cons a t ih =>
    intro m0 hsub
    have ha : a ∈ mapKeys m0 := hsub a (by simp)
    have hkeys := mapKeys_mapSet_mem (v a) ha
    have hstep := ih (mapSet m0 a (v a)) (by intro k hk; rw [hkeys]; exact hsub k (by simp [hk]))
    show mapKeys (t.foldl (fun m k => mapSet m k (v k)) (mapSet m0 a (v a))) = _
    rw [hstep, hkeys]

/-- Folding `mapSet` over a list of entries with duplicate-free keys, all
fresh for the accumulator, appends the entries unchanged. -/
lemma entries_fold_set_append : ∀ m acc : ProbMap, (mapKeys m).Nodup →
    (∀ e ∈ m, e.1 ∉ mapKeys acc) →
    m.foldl (fun acc e => mapSet acc e.1 e.2) acc = acc ++ m := by
  intro m
  induction m with
  | nil =>
    intro acc _ _
    simp
  | cons a t ih =>
    intro acc hnd hdis
    have ha : a.1 ∉ mapKeys acc := hdis a (by simp)
    have hat : a.1 ∉ mapKeys t := by
      have : mapKeys (a :: t) = a.1 :: mapKeys t := rfl
      rw [this] at hnd
      exact (List.nodup_cons.mp hnd).1
    have hno : ¬ (acc.any fun e => decide (e.1 = a.1)) = true := by
      intro hany
      rcases List.any_eq_true.mp hany with ⟨e, he, hek⟩
      exact ha (List.mem_map.mpr ⟨e, he, of_decide_eq_true hek⟩)
    have hset : mapSet acc a.1 a.2 = acc ++ [a] := by
      unfold mapSet
      rw [if_neg hno]
    have hside : ∀ e ∈ t, e.1 ∉ mapKeys (mapSet acc a.1 a.2) := by
      intro e he
      rw [hset]
      simp only [mapKeys, List.map_append, List.mem_append]
      rintro (hm | hm)
      · exact hdis e (by simp [he]) hm
      · simp only [List.map_cons, List.map_nil, List.mem_singleton] at hm
        exact hat (hm ▸ List.mem_map.mpr ⟨e, he, rfl⟩)
    have hndt : (mapKeys t).Nodup := by
      have : mapKeys (a :: t) = a.1 :: mapKeys t := rfl
      rw [this] at hnd
      exact (List.nodup_cons.mp hnd).2
    have hstep := ih (mapSet acc a.1 a.2) hndt hside
    show t.foldl (fun acc e => mapSet acc e.1 e.2) (mapSet acc a.1 a.2) = _
    rw [hstep, hset]
    simp

/-- Re-inserting the entries of a map with duplicate-free keys into the empty
map rebuilds the same map. -/
lemma entries_fold_set_eq (m : ProbMap) (hnd : (mapKeys m).Nodup) :
    m.foldl (fun acc e => mapSet acc e.1 e.2) [] = m := by
  simpa using entries_fold_set_append m [] hnd (by simp [mapKeys])

/-! ## Claim C5 — completeness of the probability map -/

lemma allCoords_nodup (b : GameBoard) : b.allCoords.Nodup := by
  have key : ∀ ys : List Nat, ys.Nodup →
      (ys.flatMap fun y => (List.range b.width).map
        fun (x : Nat) => (⟨(x : Int), (y : Int)⟩ : Coordinate)).Nodup := by
    intro ys
    induction ys with
    | nil =>
      intro _
      simp
    | cons y t ih =>
      intro hnd
      rw [List.flatMap_cons, List.nodup_append]
      refine ⟨?_, ih hnd.of_cons, ?_⟩
      · have hinj : Function.Injective
            (fun x : Nat => (⟨(x : Int), (y : Int)⟩ : Coordinate)) := by
          intro x1 x2 hx
          have := congrArg Coordinate.x hx
          simpa using this
        exact List.Nodup.map hinj (List.nodup_range b.width)
      · intro a ha ha'
        rcases List.mem_map.mp ha with ⟨x, -, rfl⟩
        rcases List.mem_flatMap.mp ha' with ⟨y', hy', hmem⟩
        rcases List.mem_map.mp hmem with ⟨x', -, heq⟩
        have hy : (x' : Int) = x ∧ (y' : Int) = y := by
          constructor
          · exact congrArg Coordinate.x heq
          · exact congrArg Coordinate.y heq
        have : y' = y := by exact_mod_cast hy.2
        exact (List.nodup_cons.mp hnd).1 (this ▸ hy')
  exact key (List.range b.height) (List.nodup_range _)

/-- The unrevealed-unflagged coordinate list is a double filter of the
row-major coordinate enumeration. -/
lemma unrevealedUnflagged_eq (b : GameBoard) :
    ProbabilityCalculator.unrevealedUnflaggedCoords b =
      (b.allCoords.filter fun q => !(b.cellAt q.x q.y).isRevealed).filter
        fun q => !(b.cellAt q.x q.y).isFlagged := by
  unfold ProbabilityCalculator.unrevealedUnflaggedCoords GameBoard.getUnrevealedCells
    GameBoard.boardCells
  simp only [List.filter_map, List.map_map]
  have hid : ((fun cc : Cell => cc.coordinates) ∘ fun cc : Coordinate => b.cellAt cc.x cc.y)
      = id := rfl
  rw [hid, List.map_id]
  rfl

lemma unrevealedUnflagged_nodup (b : GameBoard) :
    (ProbabilityCalculator.unrevealedUnflaggedCoords b).Nodup := by
  rw [unrevealedUnflagged_eq]
  exact ((allCoords_nodup b).filter _).filter _

lemma constrainedCoords_nodup (b : GameBoard) :
    (ProbabilityCalculator.constrainedCoordsOf b).Nodup :=
  (unrevealedUnflagged_nodup b).filter _

lemma unconstrainedCoords_nodup (b : GameBoard) :
    (ProbabilityCalculator.unconstrainedCoordsOf b).Nodup :=
  (unrevealedUnflagged_nodup b).filter _

/-- The key list of `calculateConstrainedProbabilities` over duplicate-free
cells is the cell list itself. -/
lemma mapKeys_calcConstrained (constraints : List Constraint) (cells : List Coordinate)
    (hnd : cells.Nodup) :
    mapKeys (ProbabilityCalculator.calculateConstrainedProbabilities constraints cells) =
      cells := by
  have hm0 : mapKeys (cells.foldl (fun m c => mapSet m c 0) []) = cells := by
    have := mapKeys_fold_set_fresh cells (fun _ => 0) [] hnd (by simp [mapKeys])
    simpa using this
  simp only [ProbabilityCalculator.calculateConstrainedProbabilities]
  split
  · rw [mapKeys_fold_set_subset cells (fun _ => 1 / 2) _ (by intro k hk; rw [hm0]; exact hk)]
    exact hm0
  · rw [mapKeys_fold_set_subset cells _ _ (by intro k hk; rw [hm0]; exact hk)]
    exact hm0

/-- Members of the constrained-cell set come from some constraint. -/
lemma mem_constrainedCellsSet {b : GameBoard} {p : Coordinate} :
    p ∈ ProbabilityCalculator.constrainedCellsSet b ↔
      ∃ c ∈ ConstraintSolver.extractConstraints b, p ∈ c.affectedCells := by
  unfold ProbabilityCalculator.constrainedCellsSet
  have key : ∀ (cs : List Constraint) (acc : List Coordinate),
      p ∈ cs.foldl (fun s k => addAll s k.affectedCells) acc ↔
        p ∈ acc ∨ ∃ c ∈ cs, p ∈ c.affectedCells := by
    intro cs
    induction cs with
    | nil => simp
    | cons a t ih =>
      intro acc
      show p ∈ t.foldl (fun s k => addAll s k.affectedCells) (addAll acc a.affectedCells) ↔ _
      rw [ih, mem_addAll]
      constructor
      · rintro ((h | h) | ⟨c, hc, hpc⟩)
        · exact Or.inl h
        · exact Or.inr ⟨a, by simp, h⟩
        · exact Or.inr ⟨c, by simp [hc], hpc⟩
      · rintro (h | ⟨c, hc, hpc⟩)
        · exact Or.inl (Or.inl h)
        · rcases List.mem_cons.mp hc with rfl | hct
          · exact Or.inl (Or.inr hpc)
          · exact Or.inr ⟨c, hct, hpc⟩
  rw [key]
  simp

/-- When the guard of the constrained branch fails, there are no constrained
cells at all. -/
lemma constrainedCoords_nil_of_guard_false (b : GameBoard)
    (h : ¬ (0 < (ProbabilityCalculator.constrainedCoordsOf b).length ∧
      0 < (ConstraintSolver.extractConstraints b).length)) :
    ProbabilityCalculator.constrainedCoordsOf b = [] := by
  rcases not_and_or.mp h with h1 | h2
  · cases hcc : ProbabilityCalculator.constrainedCoordsOf b with
    | nil => rfl
    | cons x xs =>
      exfalso
      apply h1
      rw [hcc]
      simp
  · have hcs : ConstraintSolver.extractConstraints b = [] := by
      cases hcs' : ConstraintSolver.extractConstraints b with
      | nil => rfl
      | cons x xs =>
        exfalso
        apply h2
        rw [hcs']
        simp
    unfold ProbabilityCalculator.constrainedCoordsOf
    rw [List.filter_eq_nil_iff]
    intro c _
    simp only [decide_eq_true_eq]
    intro hmem
    rcases mem_constrainedCellsSet.mp hmem with ⟨k, hk, -⟩
    rw [hcs] at hk
    cases hk

/-- The early-game adjustment preserves the key list. -/
lemma mapKeys_handleEdgeCases (b : GameBoard) (m : ProbMap) :
    mapKeys (ProbabilityCalculator.handleEdgeCases b m) = mapKeys m := by
  unfold ProbabilityCalculator.handleEdgeCases
  split
  · unfold mapKeys
    rw [List.map_map]
    apply List.map_congr_left
    intro e _
    simp only [Function.comp]
    split
    · rfl
    · split
      · rfl
      · rfl
  · rfl

/-- The key list of `calculateProbabilities`: constrained cells first, then
unconstrained cells, exactly as they are inserted. -/
lemma mapKeys_calcProbabilities (b : GameBoard) :
    mapKeys (ProbabilityCalculator.calculateProbabilities b) =
      ProbabilityCalculator.constrainedCoordsOf b ++
        ProbabilityCalculator.unconstrainedCoordsOf b := by
  have hdis : ∀ k ∈ ProbabilityCalculator.unconstrainedCoordsOf b,
      k ∉ ProbabilityCalculator.constrainedCoordsOf b := by
    intro k hk hk'
    have h1 := (List.mem_filter.mp hk).2
    have h2 := (List.mem_filter.mp hk').2
    simp only [decide_eq_true_eq] at h1 h2
    exact h1 h2
  have hm1 : (ProbabilityCalculator.calculateConstrainedProbabilities
      (ConstraintSolver.extractConstraints b)
      (ProbabilityCalculator.constrainedCoordsOf b)).foldl
        (fun m e => mapSet m e.1 e.2) [] =
      ProbabilityCalculator.calculateConstrainedProbabilities
        (ConstraintSolver.extractConstraints b)
        (ProbabilityCalculator.constrainedCoordsOf b) := by
    apply entries_fold_set_eq
    rw [mapKeys_calcConstrained _ _ (constrainedCoords_nodup b)]
    exact constrainedCoords_nodup b
  simp only [ProbabilityCalculator.calculateProbabilities]
  split
  · rename_i hlen
    have hnil : ProbabilityCalculator.unrevealedUnflaggedCoords b = [] :=
      List.length_eq_zero.mp hlen
    have hc : ProbabilityCalculator.constrainedCoordsOf b = [] := by
      unfold ProbabilityCalculator.constrainedCoordsOf
      rw [hnil]
      rfl
    have hu : ProbabilityCalculator.unconstrainedCoordsOf b = [] := by
      unfold ProbabilityCalculator.unconstrainedCoordsOf
      rw [hnil]
      rfl
    rw [hc, hu]
    rfl
  · split
    · rename_i hulen
      by_cases hg : 0 < (ProbabilityCalculator.constrainedCoordsOf b).length ∧
          0 < (ConstraintSolver.extractConstraints b).length
      · rw [if_pos hg, hm1,
          mapKeys_fold_set_fresh _ _ _ (unconstrainedCoords_nodup b) ?hfresh]
        · rw [mapKeys_calcConstrained _ _ (constrainedCoords_nodup b)]
        case hfresh =>
          intro k hk
          rw [mapKeys_calcConstrained _ _ (constrainedCoords_nodup b)]
          exact hdis k hk
      · rw [if_neg hg, constrainedCoords_nil_of_guard_false b hg,
          mapKeys_fold_set_fresh _ _ _ (unconstrainedCoords_nodup b) (by simp [mapKeys])]
        rfl
    · rename_i hulen
      have hu : ProbabilityCalculator.unconstrainedCoordsOf b = [] := by
        cases hu' : ProbabilityCalculator.unconstrainedCoordsOf b with
        | nil => rfl
        | cons x xs =>
          exfalso
          apply hulen
          rw [hu']
          simp
      by_cases hg : 0 < (ProbabilityCalculator.constrainedCoordsOf b).length ∧
          0 < (ConstraintSolver.extractConstraints b).length
      · rw [if_pos hg, hm1, mapKeys_calcConstrained _ _ (constrainedCoords_nodup b), hu]
        simp
      · rw [if_neg hg, constrainedCoords_nil_of_guard_false b hg, hu]
        rfl

/-- C5: the key set of the probability map produced by
`calculateProbabilities` — and unchanged by `handleEdgeCases`, hence the one
returned in the `HintAnalysis` — is exactly the set of unrevealed, unflagged
cells of the board, each appearing exactly once. -/
theorem c5_probability_map_keys_complete (b : GameBoard) :
    List.Perm (mapKeys (ProbabilityCalculator.calculateProbabilities b))
        (ProbabilityCalculator.unrevealedUnflaggedCoords b) ∧
      (mapKeys (ProbabilityCalculator.calculateProbabilities b)).Nodup ∧
      mapKeys ((HintEngine.analyzeBoard b).probabilities) =
        mapKeys (ProbabilityCalculator.calculateProbabilities b) := by
  have hperm : List.Perm (mapKeys (ProbabilityCalculator.calculateProbabilities b))
      (ProbabilityCalculator.unrevealedUnflaggedCoords b) := by
    rw [mapKeys_calcProbabilities]
    unfold ProbabilityCalculator.constrainedCoordsOf ProbabilityCalculator.unconstrainedCoordsOf
    have heq : ((ProbabilityCalculator.unrevealedUnflaggedCoords b).filter
        fun c => decide (c ∉ ProbabilityCalculator.constrainedCellsSet b)) =
        ((ProbabilityCalculator.unrevealedUnflaggedCoords b).filter
          fun c => !decide (c ∈ ProbabilityCalculator.constrainedCellsSet b)) := by
      apply List.filter_congr
      intro x _
      simp
    rw [heq]
    exact List.filter_append_perm _ _
  refine ⟨hperm, hperm.nodup_iff.mpr (unrevealedUnflagged_nodup b), ?_⟩
  exact mapKeys_handleEdgeCases b (ProbabilityCalculator.calculateProbabilities b)

/-! ## Claim C6 — probability values lie in [0,1] -/

/-- Values inserted by a fold of `mapSet`s stay within an invariant. -/
lemma values_fold_set (l : List Coordinate) (v : Coordinate → ℚ) (m0 : ProbMap)
    (hv : ∀ k ∈ l, 0 ≤ v k ∧ v k ≤ 1) (h0 : ∀ e ∈ m0, 0 ≤ e.2 ∧ e.2 ≤ 1) :
    ∀ e ∈ l.foldl (fun m k => mapSet m k (v k)) m0, 0 ≤ e.2 ∧ e.2 ≤ 1 := by
  refine foldl_preserve (P := fun m : ProbMap => ∀ e ∈ m, 0 ≤ e.2 ∧ e.2 ≤ 1) h0 ?_
  intro acc x hx hacc e he
  rcases mem_mapSet_elim he with h | h
  · exact hacc e h
  · rw [h]
    exact hv x hx

lemma values_calcConstrained (constraints : List Constraint) (cells : List Coordinate)
    (e : Coordinate × ℚ)
    (he : e ∈ ProbabilityCalculator.calculateConstrainedProbabilities constraints cells) :
    0 ≤ e.2 ∧ e.2 ≤ 1 := by
  have hm0 : ∀ e' ∈ cells.foldl (fun m c => mapSet m c 0) ([] : ProbMap),
      0 ≤ e'.2 ∧ e'.2 ≤ 1 := by
    refine values_fold_set cells (fun _ => 0) [] ?_ (by simp)
    intro k _
    norm_num
  simp only [ProbabilityCalculator.calculateConstrainedProbabilities] at he
  split at he
  · refine values_fold_set cells (fun _ => 1 / 2) _ ?_ hm0 e he
    intro k _
    norm_num
  · rename_i hlen
    refine values_fold_set cells _ _ ?_ hm0 e he
    intro k _
    have hpos : 0 < ((ProbabilityCalculator.generateValidAssignments constraints
        cells).length : ℚ) := by
      have := Nat.pos_of_ne_zero hlen
      exact_mod_cast this
    constructor
    · positivity
    · rw [div_le_one hpos]
      exact_mod_cast List.countP_le_length _

lemma unconstrainedProbability_bounds (b : GameBoard) (cc uc : Nat) :
    0 ≤ ProbabilityCalculator.calculateUnconstrainedProbability b cc uc ∧
      ProbabilityCalculator.calculateUnconstrainedProbability b cc uc ≤ 1 := by
  unfold ProbabilityCalculator.calculateUnconstrainedProbability
  split
  · norm_num
  · constructor
    · apply le_min
      · norm_num
      · apply div_nonneg
        · exact_mod_cast Int.le_max_left 0 _
        · exact_mod_cast Nat.zero_le uc
    · exact min_le_left _ _

lemma values_calcProbabilities (b : GameBoard) (e : Coordinate × ℚ)
    (he : e ∈ ProbabilityCalculator.calculateProbabilities b) :
    0 ≤ e.2 ∧ e.2 ≤ 1 := by
  simp only [ProbabilityCalculator.calculateProbabilities] at he
  split at he
  · cases he
  · have hm1 : ∀ e' ∈
        (if 0 < (ProbabilityCalculator.constrainedCoordsOf b).length ∧
            0 < (ConstraintSolver.extractConstraints b).length then
          (ProbabilityCalculator.calculateConstrainedProbabilities
            (ConstraintSolver.extractConstraints b)
            (ProbabilityCalculator.constrainedCoordsOf b)).foldl
              (fun m e => mapSet m e.1 e.2) []
        else ([] : ProbMap)), 0 ≤ e'.2 ∧ e'.2 ≤ 1 := by
      split
      · refine foldl_preserve
          (P := fun m : ProbMap => ∀ e' ∈ m, 0 ≤ e'.2 ∧ e'.2 ≤ 1) (by simp) ?_
        intro acc x hx hacc e' he'
        rcases mem_mapSet_elim he' with h | h
        · exact hacc e' h
        · rw [h]
          exact values_calcConstrained _ _ x hx
      · simp
    split at he
    · refine values_fold_set _ _ _ ?_ hm1 e he
      intro k _
      exact unconstrainedProbability_bounds b _ _
    · exact hm1 e he

/-- C6: every value of the probability map returned by `analyzeBoard` — the
combinatorial marginals, the 0.5 inconsistency fallback, the clamped
background rate, and the early-game edge/corner scalings — lies in the
closed interval [0,1]. -/
theorem c6_probability_values_in_unit_interval (b : GameBoard) (e : Coordinate × ℚ)
    (he : e ∈ (HintEngine.analyzeBoard b).probabilities) : 0 ≤ e.2 ∧ e.2 ≤ 1 := by
  have he' : e ∈ ProbabilityCalculator.handleEdgeCases b
      (ProbabilityCalculator.calculateProbabilities b) := he
  unfold ProbabilityCalculator.handleEdgeCases at he'
  split at he'
  · rcases List.mem_map.mp he' with ⟨e0, he0, rfl⟩
    have hb := values_calcProbabilities b e0 he0
    split
    · constructor
      · have : (0 : ℚ) ≤ 4 / 5 := by norm_num
        exact mul_nonneg hb.1 this
      · refine mul_le_one₀ hb.2 (by norm_num) (by norm_num)
    · split
      · constructor
        · have : (0 : ℚ) ≤ 9 / 10 := by norm_num
          exact mul_nonneg hb.1 this
        · refine mul_le_one₀ hb.2 (by norm_num) (by norm_num)
      · exact hb
  · exact values_calcProbabilities b e he'

theorem c6_probability_values_in_unit_interval_witness :
    (0 : ℚ) ≤ (1 / 3 : ℚ) ∧ (1 / 3 : ℚ) ≤ 1 :=
  c6_probability_values_in_unit_interval boardB2 (⟨1, 0⟩, 1 / 3)
    (by rw [boardB2_adjusted_map]; simp)

/-! ## Claim C8 — amended: the selected safe cell maximizes information gain -/

lemma foldl_argmax_spec (f : Coordinate → ℚ) (rest : List Coordinate) (m : Coordinate) :
    (rest.foldl (fun best c => if f best < f c then c else best) m) ∈ m :: rest ∧
    ∀ c ∈ m :: rest,
      f c ≤ f (rest.foldl (fun best c => if f best < f c then c else best) m) := by
  induction rest generalizing m with
  | nil => simp
  | cons a t ih =>
    rw [List.foldl_cons]
    obtain ⟨ih1, ih2⟩ := ih (if f m < f a then a else m)
    have hm'mem : (if f m < f a then a else m) = m ∨ (if f m < f a then a else m) = a := by
      split <;> simp
    have hfm : f m ≤ f (if f m < f a then a else m) := by
      split
      · exact le_of_lt (by assumption)
      · exact le_refl _
    have hfa : f a ≤ f (if f m < f a then a else m) := by
      split
      · exact le_refl _
      · exact le_of_not_lt (by assumption)
    constructor
    · rcases List.mem_cons.mp ih1 with h | h
      · rcases hm'mem with h' | h'
        · rw [h, h']
          exact List.mem_cons_self _ _
        · rw [h, h']
          exact List.mem_cons_of_mem _ (List.mem_cons_self _ _)
      · exact List.mem_cons_of_mem _ (List.mem_cons_of_mem _ h)
    · intro c hc
      rcases List.mem_cons.mp hc with rfl | hc
      · exact le_trans hfm (ih2 _ (List.mem_cons_self _ _))
      rcases List.mem_cons.mp hc with rfl | hc
      · exact le_trans hfa (ih2 _ (List.mem_cons_self _ _))
      · exact ih2 c (List.mem_cons_of_mem _ hc)

lemma selectBestGuaranteedSafe_spec (b : GameBoard) (safeMoves : List Coordinate)
    (h : safeMoves ≠ []) :
    HintEngine.selectBestGuaranteedSafe b safeMoves ∈ safeMoves ∧
    ∀ c ∈ safeMoves,
      ProbabilityCalculator.calculateInformationGain c b ≤
        ProbabilityCalculator.calculateInformationGain
          (HintEngine.selectBestGuaranteedSafe b safeMoves) b := by
  cases safeMoves with
  | nil => exact absurd rfl h
  | cons m rest =>
    exact foldl_argmax_spec (fun c => ProbabilityCalculator.calculateInformationGain c b) rest m

/-- C8, amended.  When guaranteed-safe candidates exist, `getBestMove`
recommends a member of the safe list whose information gain
(unrevealed-unflagged neighbours + 0.5 × revealed neighbours) is maximal
among all safe candidates; the candidate with more unrevealed neighbours
is not necessarily the one selected. -/
theorem c8_best_safe_maximizes_gain (b : GameBoard) (gm : GuaranteedMoves)
    (m : ProbMap) (h : 0 < gm.safe.length) :
    ∃ r, HintEngine.getBestMove b gm m = some r ∧
      r.coordinate ∈ gm.safe ∧
      ∀ c ∈ gm.safe,
        ProbabilityCalculator.calculateInformationGain c b ≤
          ProbabilityCalculator.calculateInformationGain r.coordinate b := by
  have hne : gm.safe ≠ [] := List.length_pos.mp h
  obtain ⟨h1, h2⟩ := selectBestGuaranteedSafe_spec b gm.safe hne
  refine ⟨{ coordinate := HintEngine.selectBestGuaranteedSafe b gm.safe
            probability := 0
            priority := 1000
            reasoning := "Guaranteed safe move" }, ?_, h1, h2⟩
  unfold HintEngine.getBestMove
  rw [if_pos h]

theorem c8_best_safe_maximizes_gain_witness :
    0 < (ConstraintSolver.findGuaranteedMoves boardB8).safe.length ∧
    ∃ r, HintEngine.getBestMove boardB8 (ConstraintSolver.findGuaranteedMoves boardB8)
          [] = some r ∧
      r.coordinate ∈ (ConstraintSolver.findGuaranteedMoves boardB8).safe ∧
      ∀ c ∈ (ConstraintSolver.findGuaranteedMoves boardB8).safe,
        ProbabilityCalculator.calculateInformationGain c boardB8 ≤
          ProbabilityCalculator.calculateInformationGain r.coordinate boardB8 :=
  ⟨by decide, c8_best_safe_maximizes_gain boardB8 _ [] (by decide)⟩

/-! ## Claim C2 — amended: the recommendation maximizes move priority -/

lemma mem_insertDesc (x a : MoveRecommendation) (l : List MoveRecommendation) :
    a ∈ HintEngine.insertDesc x l ↔ a = x ∨ a ∈ l := by
  induction l with
  | nil => simp [HintEngine.insertDesc]
  | cons y ys ih =>
    simp only [HintEngine.insertDesc]
    split
    · simp
    · simp only [List.mem_cons, ih]
      tauto

lemma mem_sortDesc (a : MoveRecommendation) (l : List MoveRecommendation) :
    a ∈ HintEngine.sortByPriorityDesc l ↔ a ∈ l := by
  induction l with
  | nil => simp [HintEngine.sortByPriorityDesc]
  | cons x t ih =>
    show a ∈ HintEngine.insertDesc x (HintEngine.sortByPriorityDesc t) ↔ _
    rw [mem_insertDesc, ih]
    simp

lemma insertDesc_head_max (x : MoveRecommendation) (s : List MoveRecommendation)
    (hs : ∀ r, s.head? = some r → ∀ a ∈ s, a.priority ≤ r.priority) :
    ∀ r, (HintEngine.insertDesc x s).head? = some r →
      ∀ a, (a = x ∨ a ∈ s) → a.priority ≤ r.priority := by
  cases s with
  | nil =>
    intro r hr a ha
    obtain rfl := Option.some.inj hr
    rcases ha with rfl | h
    · exact le_refl _
    · cases h
  | cons y ys =>
    intro r hr a ha
    simp only [HintEngine.insertDesc] at hr
    split at hr
    · rename_i hyx
      obtain rfl := Option.some.inj hr
      rcases ha with rfl | h
      · exact le_refl _
      · exact le_trans (hs y rfl a h) hyx
    · rename_i hyx
      obtain rfl := Option.some.inj hr
      rcases ha with rfl | h
      · exact le_of_lt (lt_of_not_le hyx)
      · exact hs y rfl a h

lemma sortDesc_head_max (l : List MoveRecommendation) :
    ∀ r, (HintEngine.sortByPriorityDesc l).head? = some r →
      ∀ a ∈ l, a.priority ≤ r.priority := by
  induction l with
  | nil =>
    intro r hr
    cases hr
  | cons x t ih =>
    intro r hr a ha
    have hh : ∀ r', (HintEngine.sortByPriorityDesc t).head? = some r' →
        ∀ a' ∈ HintEngine.sortByPriorityDesc t, a'.priority ≤ r'.priority := by
      intro r' hr' a' ha'
      exact ih r' hr' a' ((mem_sortDesc a' t).mp ha')
    have hmain := insertDesc_head_max x (HintEngine.sortByPriorityDesc t) hh r hr
    rcases List.mem_cons.mp ha with rfl | h
    · exact hmain a (Or.inl rfl)
    · exact hmain a (Or.inr ((mem_sortDesc a t).mpr h))

lemma head?_mem {α : Type} (l : List α) (a : α) (h : l.head? = some a) : a ∈ l := by
  cases l with
  | nil => cases h
  | cons x t =>
    obtain rfl := Option.some.inj h
    exact List.mem_cons_self _ _

/-- C2, amended.  When no guaranteed-safe cell exists and the probability map
is non-empty, the recommendation returned by `getBestMove` is one of the map
entries, carrying its probability, and its priority
`0.7 * (100 * (1 - p)) + 0.3 * (10 * informationGain)` is maximal over all
entries of the map; it need not have the minimum probability in the map. -/
theorem c2_recommended_maximizes_priority (b : GameBoard) (gm : GuaranteedMoves)
    (m : ProbMap) (hsafe : gm.safe = []) (hm : m ≠ []) :
    ∃ r, HintEngine.getBestMove b gm m = some r ∧
      (∃ e ∈ m, r.coordinate = e.1 ∧ r.probability = e.2 ∧
        r.priority = HintEngine.calculateMovePriority e.2
          (ProbabilityCalculator.calculateInformationGain e.1 b)) ∧
      ∀ e ∈ m,
        HintEngine.calculateMovePriority e.2
            (ProbabilityCalculator.calculateInformationGain e.1 b) ≤ r.priority := by
  have hrecne : HintEngine.recommendationsOf b m ≠ [] := by
    cases m with
    | nil => exact absurd rfl hm
    | cons e t => simp [HintEngine.recommendationsOf]
  obtain ⟨r, t, hsort⟩ : ∃ r t, HintEngine.sortByPriorityDesc
      (HintEngine.recommendationsOf b m) = r :: t := by
    cases hs : HintEngine.sortByPriorityDesc (HintEngine.recommendationsOf b m) with
    | nil =>
      exfalso
      obtain ⟨a, ha⟩ := List.exists_mem_of_ne_nil _ hrecne
      have := (mem_sortDesc a (HintEngine.recommendationsOf b m)).mpr ha
      rw [hs] at this
      cases this
    | cons r t => exact ⟨r, t, rfl⟩
  have hhead : (HintEngine.sortByPriorityDesc
      (HintEngine.recommendationsOf b m)).head? = some r := by
    rw [hsort]
    rfl
  refine ⟨r, ?_, ?_, ?_⟩
  · unfold HintEngine.getBestMove
    rw [if_neg (by rw [hsafe]; simp), if_pos (List.length_pos.mpr hm)]
    unfold HintEngine.selectBestProbabilisticMove
    rw [if_neg (by simpa using hrecne)]
    exact hhead
  · have hrmem : r ∈ HintEngine.recommendationsOf b m := by
      have := head?_mem _ r hhead
      exact (mem_sortDesc r _).mp this
    obtain ⟨e, he, hre⟩ := List.mem_map.mp hrmem
    subst hre
    exact ⟨e, he, rfl, rfl, rfl⟩
  · intro e he
    have hmm : (fun e : Coordinate × ℚ =>
        ({ coordinate := e.1
           probability := e.2
           priority := HintEngine.calculateMovePriority e.2
             (ProbabilityCalculator.calculateInformationGain e.1 b)
           reasoning := HintEngine.generateMoveReasoning e.2 } : MoveRecommendation)) e ∈
        HintEngine.recommendationsOf b m :=
      List.mem_map.mpr ⟨e, he, rfl⟩
    exact sortDesc_head_max _ r hhead _ hmm

theorem c2_recommended_maximizes_priority_witness :
    (ConstraintSolver.findGuaranteedMoves boardB2).safe = [] ∧
    (HintEngine.analyzeBoard boardB2).probabilities ≠ [] ∧
    ∃ r, HintEngine.getBestMove boardB2 (ConstraintSolver.findGuaranteedMoves boardB2)
          ((HintEngine.analyzeBoard boardB2).probabilities) = some r ∧
      (∃ e ∈ (HintEngine.analyzeBoard boardB2).probabilities, r.coordinate = e.1 ∧
        r.probability = e.2 ∧
        r.priority = HintEngine.calculateMovePriority e.2
          (ProbabilityCalculator.calculateInformationGain e.1 boardB2)) ∧
      ∀ e ∈ (HintEngine.analyzeBoard boardB2).probabilities,
        HintEngine.calculateMovePriority e.2
            (ProbabilityCalculator.calculateInformationGain e.1 boardB2) ≤ r.priority :=
  ⟨by decide, by rw [boardB2_adjusted_map]; simp,
   c2_recommended_maximizes_priority boardB2 _ _ (by decide)
     (by rw [boardB2_adjusted_map]; simp)⟩

/-! ## Claim C4 — amended: guaranteed-safe cells keep probability 0 -/

lemma mem_allCoords {b : GameBoard} {q : Coordinate}
    (h : b.isValidCoordinate q.x q.y = true) : q ∈ b.allCoords := by
  revert h
  obtain ⟨x, y⟩ := q
  intro h
  simp only [GameBoard.isValidCoordinate, Bool.and_eq_true, decide_eq_true_eq] at h
  obtain ⟨⟨⟨hx0, hxw⟩, hy0⟩, hyh⟩ := h
  simp only [GameBoard.allCoords, List.mem_flatMap, List.mem_map, List.mem_range]
  exact ⟨y.toNat, by omega, x.toNat, by omega, by simp only [Coordinate.mk.injEq]; omega⟩

lemma affected_mem_unrevealedUnflagged {b : GameBoard} {c : Constraint} {p : Coordinate}
    (hc : c ∈ ConstraintSolver.extractConstraints b) (hp : p ∈ c.affectedCells) :
    p ∈ ProbabilityCalculator.unrevealedUnflaggedCoords b := by
  rw [extract_affected_eq hc] at hp
  obtain ⟨hadj, hpred⟩ := List.mem_filter.mp hp
  have hvalid : b.isValidCoordinate p.x p.y = true := by
    simp only [GameBoard.adjacentCoords, List.mem_filterMap] at hadj
    obtain ⟨d, hd, hif⟩ := hadj
    split at hif
    · rename_i hv
      obtain rfl := Option.some.inj hif
      exact hv
    · cases hif
  rw [unrevealedUnflagged_eq, List.mem_filter, List.mem_filter]
  simp only [Bool.and_eq_true] at hpred
  exact ⟨⟨mem_allCoords hvalid, hpred.1⟩, hpred.2⟩

/-- Every coordinate placed in the `safe` list comes from the affected cells
of some extracted constraint. -/
lemma guaranteed_safe_from_constraints (b : GameBoard) :
    ∀ p ∈ (ConstraintSolver.findGuaranteedMoves b).safe,
      ∃ c ∈ ConstraintSolver.extractConstraints b, p ∈ c.affectedCells := by
  have hsimple : ∀ p ∈ ((ConstraintSolver.extractConstraints b).foldl
      ConstraintSolver.simpleRulesStep ([], [])).1,
      ∃ c ∈ ConstraintSolver.extractConstraints b, p ∈ c.affectedCells := by
    refine foldl_preserve
      (P := fun acc : List Coordinate × List Coordinate =>
        ∀ q ∈ acc.1, ∃ c ∈ ConstraintSolver.extractConstraints b, q ∈ c.affectedCells)
      (by simp) ?_
    intro acc c hc hacc q hq
    unfold ConstraintSolver.simpleRulesStep at hq
    split at hq
    · rcases mem_addAll.mp hq with h | h
      · exact hacc q h
      · exact ⟨c, hc, h⟩
    · split at hq
      · exact hacc q hq
      · exact hacc q hq
  have hstep : ∀ (acc : List Coordinate × List Coordinate)
      (pr : Constraint × Constraint),
      pr ∈ ConstraintSolver.constraintPairs (ConstraintSolver.extractConstraints b) →
      (∀ q ∈ acc.1, ∃ c ∈ ConstraintSolver.extractConstraints b, q ∈ c.affectedCells) →
      ∀ q ∈ (ConstraintSolver.subsetStep acc pr).1,
        ∃ c ∈ ConstraintSolver.extractConstraints b, q ∈ c.affectedCells := by
    intro acc pr hpr hacc q hq
    simp only [ConstraintSolver.subsetStep] at hq
    split at hq
    · split at hq
      · rcases mem_addAll.mp hq with h | h
        · exact hacc q h
        · have h1 := List.mem_filter.mp h
          exact ⟨pr.2, (constraintPairs_mem hpr).2, mem_jsSet.mp h1.1⟩
      · split at hq
        · exact hacc q hq
        · exact hacc q hq
    · exact hacc q hq
  intro p hp
  have hp' : p ∈ ((ConstraintSolver.constraintPairs
      (ConstraintSolver.extractConstraints b)).foldl ConstraintSolver.subsetStep
      ((ConstraintSolver.extractConstraints b).foldl
        ConstraintSolver.simpleRulesStep ([], []))).1 := hp
  exact foldl_preserve
    (P := fun acc : List Coordinate × List Coordinate =>
      ∀ q ∈ acc.1, ∃ c ∈ ConstraintSolver.extractConstraints b, q ∈ c.affectedCells)
    hsimple hstep p hp'

/-- Soundness of the three deduction rules, shared form: any assignment
meeting every extracted constraint exactly marks `safe` cells mine-free and
`mines` cells mined. -/
lemma findGuaranteedMoves_sound_aux (b : GameBoard) (f : Coordinate → Bool)
    (hf : ∀ c ∈ ConstraintSolver.extractConstraints b,
      ((c.affectedCells.countP fun a => f a : Nat) : Int) = c.requiredMines) :
    (∀ p ∈ (ConstraintSolver.findGuaranteedMoves b).safe, f p = false) ∧
      (∀ p ∈ (ConstraintSolver.findGuaranteedMoves b).mines, f p = true) := by
  have hsimple :
      (∀ p ∈ ((ConstraintSolver.extractConstraints b).foldl
          ConstraintSolver.simpleRulesStep ([], [])).1, f p = false) ∧
        (∀ p ∈ ((ConstraintSolver.extractConstraints b).foldl
          ConstraintSolver.simpleRulesStep ([], [])).2, f p = true) := by
    refine foldl_preserve
      (P := fun acc : List Coordinate × List Coordinate =>
        (∀ p ∈ acc.1, f p = false) ∧ (∀ p ∈ acc.2, f p = true))
      ⟨by simp, by simp⟩ ?_
    intro acc c hc hacc
    exact simpleRulesStep_sound (hf c hc) hacc.1 hacc.2
  refine foldl_preserve
    (P := fun acc : List Coordinate × List Coordinate =>
      (∀ p ∈ acc.1, f p = false) ∧ (∀ p ∈ acc.2, f p = true))
    hsimple ?_
  intro acc pr hpr hacc
  have hmem := constraintPairs_mem hpr
  exact subsetStep_sound (extract_affected_nodup hmem.1) (extract_affected_nodup hmem.2)
    (hf pr.1 hmem.1) (hf pr.2 hmem.2) hacc.1 hacc.2

/-- For a guaranteed-safe cell no valid assignment places a mine on it. -/
lemma safe_marginal_zero (b : GameBoard) (p : Coordinate)
    (hp : p ∈ (ConstraintSolver.findGuaranteedMoves b).safe) :
    ((ProbabilityCalculator.generateValidAssignments (ConstraintSolver.extractConstraints b)
        (ProbabilityCalculator.constrainedCoordsOf b)).countP
      fun i => ProbabilityCalculator.assignFun
        (ProbabilityCalculator.constrainedCoordsOf b) i p) = 0 := by
  apply List.countP_eq_zero.mpr
  intro i hi
  have hvalid : ProbabilityCalculator.isValidAssignment
      (ProbabilityCalculator.assignFun (ProbabilityCalculator.constrainedCoordsOf b) i)
      (ConstraintSolver.extractConstraints b) = true := by
    have := (List.mem_filter.mp hi).2
    simpa using this
  have hf : ∀ c ∈ ConstraintSolver.extractConstraints b,
      ((c.affectedCells.countP fun a => ProbabilityCalculator.assignFun
        (ProbabilityCalculator.constrainedCoordsOf b) i a : Nat) : Int) = c.requiredMines := by
    intro c hc
    have := List.all_eq_true.mp hvalid c hc
    simpa using this
  have hfalse := (findGuaranteedMoves_sound_aux b _ hf).1 p hp
  simp [hfalse]

lemma mapGet_map_keypres (g : Coordinate × ℚ → Coordinate × ℚ)
    (hg : ∀ e, (g e).1 = e.1) (m : ProbMap) (c : Coordinate) :
    (m.map g).find? (fun e => decide (e.1 = c)) =
      (m.find? fun e => decide (e.1 = c)).map g := by
  induction m with
  | nil => rfl
  | cons a t ih =>
    by_cases hac : a.1 = c
    · have h1 : (g a).1 = c := by rw [hg a, hac]
      rw [List.map_cons,
        @List.find?_cons_of_pos _ (fun e : Coordinate × ℚ => decide (e.1 = c)) _ _
          (decide_eq_true h1),
        @List.find?_cons_of_pos _ (fun e : Coordinate × ℚ => decide (e.1 = c)) _ _
          (decide_eq_true hac)]
      rfl
    · have h1 : ¬ (g a).1 = c := by rw [hg a]; exact hac
      rw [List.map_cons,
        @List.find?_cons_of_neg _ (fun e : Coordinate × ℚ => decide (e.1 = c)) _ _
          (by simpa using h1),
        @List.find?_cons_of_neg _ (fun e : Coordinate × ℚ => decide (e.1 = c)) _ _
          (by simpa using hac),
        ih]

/-- The early-game scaling maps a stored probability 0 to 0. -/
lemma mapGet_handleEdgeCases_zero (b : GameBoard) (m : ProbMap) (c : Coordinate)
    (h : mapGet m c = some 0) :
    mapGet (ProbabilityCalculator.handleEdgeCases b m) c = some 0 := by
  unfold ProbabilityCalculator.handleEdgeCases
  split
  · obtain ⟨e, he, hev⟩ : ∃ e, (m.find? fun e => decide (e.1 = c)) = some e ∧ e.2 = 0 := by
      unfold mapGet at h
      cases hf : m.find? fun e => decide (e.1 = c) with
      | none =>
        rw [hf] at h
        cases h
      | some e =>
        rw [hf] at h
        exact ⟨e, rfl, Option.some.inj h⟩
    have hg : ∀ e : Coordinate × ℚ,
        ((if (e.1.x = 0 ∨ e.1.x = (b.width : Int) - 1) ∧
              (e.1.y = 0 ∨ e.1.y = (b.height : Int) - 1) then
            (e.1, e.2 * (4 / 5))
          else if e.1.x = 0 ∨ e.1.x = (b.width : Int) - 1 ∨
              e.1.y = 0 ∨ e.1.y = (b.height : Int) - 1 then
            (e.1, e.2 * (9 / 10))
          else e) : Coordinate × ℚ).1 = e.1 := by
      intro e
      split
      · rfl
      · split
        · rfl
        · rfl
    unfold mapGet
    rw [mapGet_map_keypres _ hg m c, he]
    simp only [Option.map_some']
    split
    · rw [hev]
      norm_num
    · split
      · rw [hev]
        norm_num
      · rw [hev]
  · exact h

/-- C4, amended.  Whenever at least one complete assignment satisfies all
extracted constraints, every guaranteed-safe cell is stored in the map
returned by `analyzeBoard` with probability exactly 0, and the early-game
edge/corner scaling cannot change that (0 × 0.8 = 0 × 0.9 = 0); the
symmetric statement for guaranteed mines is false, their probability-1
entries are scaled down in the early game. -/
theorem c4_guaranteed_safe_probability_zero (b : GameBoard) (p : Coordinate)
    (hp : p ∈ (ConstraintSolver.findGuaranteedMoves b).safe)
    (hvne : ProbabilityCalculator.generateValidAssignments
        (ConstraintSolver.extractConstraints b)
        (ProbabilityCalculator.constrainedCoordsOf b) ≠ []) :
    mapGet ((HintEngine.analyzeBoard b).probabilities) p = some 0 := by
  obtain ⟨c, hcmem, hpa⟩ := guaranteed_safe_from_constraints b p hp
  have hpu : p ∈ ProbabilityCalculator.unrevealedUnflaggedCoords b :=
    affected_mem_unrevealedUnflagged hcmem hpa
  have hpset : p ∈ ProbabilityCalculator.constrainedCellsSet b :=
    mem_constrainedCellsSet.mpr ⟨c, hcmem, hpa⟩
  have hpcc : p ∈ ProbabilityCalculator.constrainedCoordsOf b := by
    unfold ProbabilityCalculator.constrainedCoordsOf
    rw [List.mem_filter]
    exact ⟨hpu, by simpa using hpset⟩
  have hcalc : mapGet (ProbabilityCalculator.calculateConstrainedProbabilities
      (ConstraintSolver.extractConstraints b)
      (ProbabilityCalculator.constrainedCoordsOf b)) p = some 0 := by
    simp only [ProbabilityCalculator.calculateConstrainedProbabilities]
    rw [if_neg fun hz => hvne (List.length_eq_zero.mp hz)]
    rw [mapGet_fold_set (ProbabilityCalculator.constrainedCoordsOf b)
      (fun k => (((ProbabilityCalculator.generateValidAssignments
          (ConstraintSolver.extractConstraints b)
          (ProbabilityCalculator.constrainedCoordsOf b)).countP fun i =>
            ProbabilityCalculator.assignFun
              (ProbabilityCalculator.constrainedCoordsOf b) i k : Nat) : ℚ) /
        (((ProbabilityCalculator.generateValidAssignments
          (ConstraintSolver.extractConstraints b)
          (ProbabilityCalculator.constrainedCoordsOf b)).length : Nat) : ℚ)) _ p,
      if_pos hpcc, safe_marginal_zero b p hp]
    norm_num
  have hm1 : mapGet ((ProbabilityCalculator.calculateConstrainedProbabilities
      (ConstraintSolver.extractConstraints b)
      (ProbabilityCalculator.constrainedCoordsOf b)).foldl
        (fun m e => mapSet m e.1 e.2) []) p = some 0 := by
    rw [entries_fold_set_eq _ (by
      rw [mapKeys_calcConstrained _ _ (constrainedCoords_nodup b)]
      exact constrainedCoords_nodup b)]
    exact hcalc
  have hprob : mapGet (ProbabilityCalculator.calculateProbabilities b) p = some 0 := by
    have hlen : ¬ (ProbabilityCalculator.unrevealedUnflaggedCoords b).length = 0 :=
      fun hz => (List.ne_nil_of_mem hpu) (List.length_eq_zero.mp hz)
    have hguard : 0 < (ProbabilityCalculator.constrainedCoordsOf b).length ∧
        0 < (ConstraintSolver.extractConstraints b).length :=
      ⟨List.length_pos.mpr (List.ne_nil_of_mem hpcc),
        List.length_pos.mpr (List.ne_nil_of_mem hcmem)⟩
    simp only [ProbabilityCalculator.calculateProbabilities]
    rw [if_neg hlen, if_pos hguard]
    split
    · rw [mapGet_fold_set (ProbabilityCalculator.unconstrainedCoordsOf b)
        (fun _ => ProbabilityCalculator.calculateUnconstrainedProbability b
          (ProbabilityCalculator.constrainedCoordsOf b).length
          (ProbabilityCalculator.unconstrainedCoordsOf b).length) _ p,
        if_neg ?hnot]
      · exact hm1
      case hnot =>
        intro hmem
        have h2 := (List.mem_filter.mp hmem).2
        simp only [decide_eq_true_eq] at h2
        exact h2 hpset
    · exact hm1
  exact mapGet_handleEdgeCases_zero b _ p hprob

theorem c4_guaranteed_safe_probability_zero_witness :
    (⟨1, 0⟩ : Coordinate) ∈ (ConstraintSolver.findGuaranteedMoves boardW4).safe ∧
    ProbabilityCalculator.generateValidAssignments
        (ConstraintSolver.extractConstraints boardW4)
        (ProbabilityCalculator.constrainedCoordsOf boardW4) ≠ [] ∧
    mapGet ((HintEngine.analyzeBoard boardW4).probabilities) ⟨1, 0⟩ = some 0 :=
  ⟨by decide, by decide,
    c4_guaranteed_safe_probability_zero boardW4 ⟨1, 0⟩ (by decide) (by decide)⟩

/-! ## Claim C7 — amended: disjoint components factorize when both are
consistent -/

lemma assignFun_append_left (l2 : List Coordinate) (c : Coordinate) (hc2 : c ∉ l2) :
    ∀ (l1 : List Coordinate), c ∈ l1 → ∀ i,
      ProbabilityCalculator.assignFun (l1 ++ l2) i c =
        ProbabilityCalculator.assignFun l1 i c := by
  intro l1
  induction l1 with
  | nil =>
    intro h
    cases h
  | cons d rest ih =>
    intro hc1 i
    show ProbabilityCalculator.assignFun (d :: (rest ++ l2)) i c = _
    simp only [ProbabilityCalculator.assignFun]
    by_cases hcr : c ∈ rest
    · rw [if_pos (List.mem_append.mpr (Or.inl hcr)), if_pos hcr]
      exact ih hcr (i / 2)
    · have h1 : c ∉ rest ++ l2 := by
        rw [List.mem_append]
        rintro (h | h)
        · exact hcr h
        · exact hc2 h
      rw [if_neg h1, if_neg hcr]

lemma assignFun_append_right (l2 : List Coordinate) (c : Coordinate) (hc2 : c ∈ l2) :
    ∀ (l1 : List Coordinate) (i : Nat),
      ProbabilityCalculator.assignFun (l1 ++ l2) i c =
        ProbabilityCalculator.assignFun l2 (i / 2 ^ l1.length) c := by
  intro l1
  induction l1 with
  | nil =>
    intro i
    simp
  | cons d rest ih =>
    intro i
    show ProbabilityCalculator.assignFun (d :: (rest ++ l2)) i c = _
    simp only [ProbabilityCalculator.assignFun]
    rw [if_pos (List.mem_append.mpr (Or.inr hc2)), ih (i / 2)]
    congr 1
    rw [Nat.div_div_eq_div_mul, List.length_cons, pow_succ,
      Nat.mul_comm 2 (2 ^ rest.length)]

lemma assignFun_mod (l : List Coordinate) : ∀ (i : Nat) (c : Coordinate),
    ProbabilityCalculator.assignFun l (i % 2 ^ l.length) c =
      ProbabilityCalculator.assignFun l i c := by
  induction l with
  | nil =>
    intro i c
    rfl
  | cons d rest ih =>
    intro i c
    simp only [ProbabilityCalculator.assignFun]
    by_cases hcr : c ∈ rest
    · rw [if_pos hcr, if_pos hcr]
      have h1 : i % 2 ^ (d :: rest).length / 2 = i / 2 % 2 ^ rest.length := by
        rw [List.length_cons, pow_succ, Nat.mul_comm (2 ^ rest.length) 2]
        exact Nat.mod_mul_right_div_self i 2 (2 ^ rest.length)
      rw [h1, ih (i / 2) c]
    · rw [if_neg hcr, if_neg hcr]
      by_cases hcd : c = d
      · rw [if_pos hcd, if_pos hcd]
        have h2 : i % 2 ^ (d :: rest).length % 2 = i % 2 :=
          Nat.mod_mod_of_dvd i (dvd_pow_self 2 (by simp))
        rw [h2]
      · rw [if_neg hcd, if_neg hcd]

lemma isValidAssignment_congr (f g : Coordinate → Bool) :
    ∀ (cs : List Constraint), (∀ ct ∈ cs, ∀ a ∈ ct.affectedCells, f a = g a) →
      ProbabilityCalculator.isValidAssignment f cs =
        ProbabilityCalculator.isValidAssignment g cs := by
  intro cs
  induction cs with
  | nil =>
    intro h
    rfl
  | cons ct t ih =>
    intro h
    unfold ProbabilityCalculator.isValidAssignment
    rw [List.all_cons, List.all_cons]
    have h1 : ct.affectedCells.countP (fun a => f a) = ct.affectedCells.countP fun a => g a :=
      List.countP_congr fun a ha => by rw [h ct (List.mem_cons_self _ _) a ha]
    rw [h1]
    congr 1
    exact ih fun x hx y hy => h x (List.mem_cons_of_mem _ hx) y hy

lemma countP_range_mul (N1 : Nat) (hN1 : 0 < N1) (p q : Nat → Bool) :
    ∀ N2 : Nat, (List.range (N1 * N2)).countP (fun i => p (i % N1) && q (i / N1)) =
      (List.range N1).countP p * (List.range N2).countP q := by
  intro N2
  induction N2 with
  | zero => simp
  | succ n ih =>
    have hmap : ((List.range N1).map fun j => N1 * n + j).countP
        (fun i => p (i % N1) && q (i / N1)) =
        (List.range N1).countP fun j => p j && q n := by
      rw [List.countP_map]
      apply List.countP_congr
      intro j hj
      have hjlt := List.mem_range.mp hj
      simp only [Function.comp]
      rw [Nat.mul_add_mod, Nat.mod_eq_of_lt hjlt, Nat.mul_add_div hN1,
        Nat.div_eq_of_lt hjlt, Nat.add_zero]
    rw [Nat.mul_succ, List.range_add, List.countP_append, ih, hmap, List.range_succ,
      List.countP_append]
    by_cases hqn : q n = true
    · have hp1 : ((List.range N1).countP fun j => p j && q n) =
          (List.range N1).countP p :=
        List.countP_congr fun a _ => by rw [hqn, Bool.and_true]
      have hq1 : List.countP q [n] = 1 := by
        simp [List.countP_cons, hqn]
      rw [hp1, hq1]
      ring
    · have hqf : q n = false := Bool.eq_false_iff.mpr hqn
      have hp0 : ((List.range N1).countP fun j => p j && q n) = 0 := by
        rw [List.countP_eq_zero]
        intro a _
        simp [hqf]
      have hq0 : List.countP q [n] = 0 := by
        simp [List.countP_cons, hqf]
      rw [hp0, hq0]
      ring

/-- C7, amended.  When the constraint set splits into two components whose
affected cells live in disjoint cell lists, the joint enumeration stays
within the cap, and each component admits at least one valid assignment,
the per-cell marginal computed from the joint enumeration equals the one
computed from the cell's own component alone; when one component is
inconsistent this fails, since the joint pass collapses to the 0.5
fallback. -/
theorem c7_independent_components_factorize
    (cs1 cs2 : List Constraint) (cells1 cells2 : List Coordinate) (c : Coordinate)
    (h1 : ∀ ct ∈ cs1, ∀ a ∈ ct.affectedCells, a ∈ cells1)
    (h2 : ∀ ct ∈ cs2, ∀ a ∈ ct.affectedCells, a ∈ cells2)
    (hdis : ∀ a ∈ cells1, a ∉ cells2)
    (hcap : 2 ^ (cells1.length + cells2.length) ≤ 1000000)
    (hv1 : ProbabilityCalculator.generateValidAssignments cs1 cells1 ≠ [])
    (hv2 : ProbabilityCalculator.generateValidAssignments cs2 cells2 ≠ [])
    (hc : c ∈ cells1) :
    mapGet (ProbabilityCalculator.calculateConstrainedProbabilities (cs1 ++ cs2)
        (cells1 ++ cells2)) c =
      mapGet (ProbabilityCalculator.calculateConstrainedProbabilities cs1 cells1) c := by
  have hN1 : 0 < 2 ^ cells1.length := Nat.pos_pow_of_pos _ (by norm_num)
  have hmin1 : min (2 ^ cells1.length) 1000000 = 2 ^ cells1.length :=
    min_eq_left (le_trans (Nat.pow_le_pow_right (by norm_num) (Nat.le_add_right _ _)) hcap)
  have hmin2 : min (2 ^ cells2.length) 1000000 = 2 ^ cells2.length :=
    min_eq_left (le_trans (Nat.pow_le_pow_right (by norm_num) (Nat.le_add_left _ _)) hcap)
  have hval1 : ProbabilityCalculator.generateValidAssignments cs1 cells1 =
      (List.range (2 ^ cells1.length)).filter fun i =>
        ProbabilityCalculator.isValidAssignment
          (ProbabilityCalculator.assignFun cells1 i) cs1 := by
    simp only [ProbabilityCalculator.generateValidAssignments]
    rw [hmin1]
  have hval2 : ProbabilityCalculator.generateValidAssignments cs2 cells2 =
      (List.range (2 ^ cells2.length)).filter fun i =>
        ProbabilityCalculator.isValidAssignment
          (ProbabilityCalculator.assignFun cells2 i) cs2 := by
    simp only [ProbabilityCalculator.generateValidAssignments]
    rw [hmin2]
  have hsplit : ∀ f : Coordinate → Bool,
      ProbabilityCalculator.isValidAssignment f (cs1 ++ cs2) =
        (ProbabilityCalculator.isValidAssignment f cs1 &&
          ProbabilityCalculator.isValidAssignment f cs2) := by
    intro f
    unfold ProbabilityCalculator.isValidAssignment
    exact List.all_append
  have hpred : ∀ i, ProbabilityCalculator.isValidAssignment
      (ProbabilityCalculator.assignFun (cells1 ++ cells2) i) (cs1 ++ cs2) =
      ((fun j => ProbabilityCalculator.isValidAssignment
          (ProbabilityCalculator.assignFun cells1 j) cs1) (i % 2 ^ cells1.length) &&
        (fun j => ProbabilityCalculator.isValidAssignment
          (ProbabilityCalculator.assignFun cells2 j) cs2) (i / 2 ^ cells1.length)) := by
    intro i
    rw [hsplit]
    congr 1
    · apply isValidAssignment_congr
      intro ct hct a ha
      rw [assignFun_append_left cells2 a (hdis a (h1 ct hct a ha)) cells1 (h1 ct hct a ha) i,
        assignFun_mod cells1 i a]
    · apply isValidAssignment_congr
      intro ct hct a ha
      exact assignFun_append_right cells2 a (h2 ct hct a ha) cells1 i
  have hvalJ : ProbabilityCalculator.generateValidAssignments (cs1 ++ cs2)
      (cells1 ++ cells2) =
      (List.range (2 ^ cells1.length * 2 ^ cells2.length)).filter fun i =>
        ((fun j => ProbabilityCalculator.isValidAssignment
            (ProbabilityCalculator.assignFun cells1 j) cs1) (i % 2 ^ cells1.length) &&
          (fun j => ProbabilityCalculator.isValidAssignment
            (ProbabilityCalculator.assignFun cells2 j) cs2) (i / 2 ^ cells1.length)) := by
    simp only [ProbabilityCalculator.generateValidAssignments]
    rw [List.length_append, min_eq_left hcap, pow_add]
    apply List.filter_congr
    intro i _
    exact hpred i
  have hjlen : (ProbabilityCalculator.generateValidAssignments (cs1 ++ cs2)
      (cells1 ++ cells2)).length =
      (ProbabilityCalculator.generateValidAssignments cs1 cells1).length *
        (ProbabilityCalculator.generateValidAssignments cs2 cells2).length := by
    rw [hvalJ, hval1, hval2, ← List.countP_eq_length_filter,
      ← List.countP_eq_length_filter, ← List.countP_eq_length_filter]
    exact countP_range_mul (2 ^ cells1.length) hN1
      (fun j => ProbabilityCalculator.isValidAssignment
        (ProbabilityCalculator.assignFun cells1 j) cs1)
      (fun j => ProbabilityCalculator.isValidAssignment
        (ProbabilityCalculator.assignFun cells2 j) cs2)
      (2 ^ cells2.length)
  have hnum : (ProbabilityCalculator.generateValidAssignments (cs1 ++ cs2)
      (cells1 ++ cells2)).countP
        (fun i => ProbabilityCalculator.assignFun (cells1 ++ cells2) i c) =
      ((ProbabilityCalculator.generateValidAssignments cs1 cells1).countP
        fun j => ProbabilityCalculator.assignFun cells1 j c) *
        (ProbabilityCalculator.generateValidAssignments cs2 cells2).length := by
    rw [hvalJ, hval1, hval2, List.countP_filter, List.countP_filter,
      ← List.countP_eq_length_filter]
    have hprod := countP_range_mul (2 ^ cells1.length) hN1
      (fun j => ProbabilityCalculator.assignFun cells1 j c &&
        ProbabilityCalculator.isValidAssignment
          (ProbabilityCalculator.assignFun cells1 j) cs1)
      (fun j => ProbabilityCalculator.isValidAssignment
        (ProbabilityCalculator.assignFun cells2 j) cs2)
      (2 ^ cells2.length)
    rw [← hprod]
    apply List.countP_congr
    intro i _
    simp only
    rw [assignFun_append_left cells2 c (hdis c hc) cells1 hc i, ← assignFun_mod cells1 i c,
      Bool.and_assoc]
  have hV1z : ¬ (ProbabilityCalculator.generateValidAssignments cs1 cells1).length = 0 :=
    fun h => hv1 (List.length_eq_zero.mp h)
  have hV2z : ¬ (ProbabilityCalculator.generateValidAssignments cs2 cells2).length = 0 :=
    fun h => hv2 (List.length_eq_zero.mp h)
  have hJz : ¬ (ProbabilityCalculator.generateValidAssignments (cs1 ++ cs2)
      (cells1 ++ cells2)).length = 0 := by
    rw [hjlen]
    exact Nat.mul_ne_zero hV1z hV2z
  have hLJ : mapGet (ProbabilityCalculator.calculateConstrainedProbabilities (cs1 ++ cs2)
      (cells1 ++ cells2)) c =
      some ((((ProbabilityCalculator.generateValidAssignments (cs1 ++ cs2)
          (cells1 ++ cells2)).countP
            fun i => ProbabilityCalculator.assignFun (cells1 ++ cells2) i c : Nat) : ℚ) /
        (((ProbabilityCalculator.generateValidAssignments (cs1 ++ cs2)
          (cells1 ++ cells2)).length : Nat) : ℚ)) := by
    simp only [ProbabilityCalculator.calculateConstrainedProbabilities]
    rw [if_neg hJz,
      mapGet_fold_set (cells1 ++ cells2)
        (fun k => (((ProbabilityCalculator.generateValidAssignments (cs1 ++ cs2)
            (cells1 ++ cells2)).countP
              fun i => ProbabilityCalculator.assignFun (cells1 ++ cells2) i k : Nat) : ℚ) /
          (((ProbabilityCalculator.generateValidAssignments (cs1 ++ cs2)
            (cells1 ++ cells2)).length : Nat) : ℚ)) _ c,
      if_pos (List.mem_append.mpr (Or.inl hc))]
  have hL1 : mapGet (ProbabilityCalculator.calculateConstrainedProbabilities cs1 cells1) c =
      some ((((ProbabilityCalculator.generateValidAssignments cs1 cells1).countP
            fun i => ProbabilityCalculator.assignFun cells1 i c : Nat) : ℚ) /
        (((ProbabilityCalculator.generateValidAssignments cs1 cells1).length : Nat) : ℚ)) := by
    simp only [ProbabilityCalculator.calculateConstrainedProbabilities]
    rw [if_neg hV1z,
      mapGet_fold_set cells1
        (fun k => (((ProbabilityCalculator.generateValidAssignments cs1 cells1).countP
              fun i => ProbabilityCalculator.assignFun cells1 i k : Nat) : ℚ) /
          (((ProbabilityCalculator.generateValidAssignments cs1 cells1).length : Nat) : ℚ))
        _ c,
      if_pos hc]
  rw [hLJ, hL1, hnum, hjlen]
  congr 1
  push_cast
  rw [mul_div_mul_right _ _ (Nat.cast_ne_zero.mpr hV2z)]

theorem c7_independent_components_factorize_witness :
    ProbabilityCalculator.generateValidAssignments
        [⟨⟨6, 0⟩, 1, [⟨5, 0⟩, ⟨7, 0⟩]⟩, ⟨⟨8, 0⟩, 2, [⟨7, 0⟩, ⟨9, 0⟩]⟩]
        [⟨5, 0⟩, ⟨7, 0⟩, ⟨9, 0⟩] ≠ [] ∧
    ProbabilityCalculator.generateValidAssignments [⟨⟨3, 0⟩, 1, [⟨2, 0⟩]⟩] [⟨2, 0⟩] ≠ [] ∧
    mapGet (ProbabilityCalculator.calculateConstrainedProbabilities
        ([⟨⟨6, 0⟩, 1, [⟨5, 0⟩, ⟨7, 0⟩]⟩, ⟨⟨8, 0⟩, 2, [⟨7, 0⟩, ⟨9, 0⟩]⟩] ++
          [⟨⟨3, 0⟩, 1, [⟨2, 0⟩]⟩])
        ([⟨5, 0⟩, ⟨7, 0⟩, ⟨9, 0⟩] ++ [⟨2, 0⟩])) ⟨5, 0⟩ =
      mapGet (ProbabilityCalculator.calculateConstrainedProbabilities
        [⟨⟨6, 0⟩, 1, [⟨5, 0⟩, ⟨7, 0⟩]⟩, ⟨⟨8, 0⟩, 2, [⟨7, 0⟩, ⟨9, 0⟩]⟩]
        [⟨5, 0⟩, ⟨7, 0⟩, ⟨9, 0⟩]) ⟨5, 0⟩ :=
  ⟨by decide, by decide,
   c7_independent_components_factorize _ _ _ _ ⟨5, 0⟩ (by decide) (by decide) (by decide)
     (by decide) (by decide) (by decide) (by decide)⟩
